import Mathlib

/-!
# Verification of silkprint's theme engine and markup emitter

A shallow embedding of the core of the `silkprint` repository:

* the theme merge engine (`deep_merge_toml`, `merge_tokens`,
  `resolve_inheritance`, `resolve_color_table` from `src/theme/mod.rs`),
* the WCAG contrast auditor (`src/theme/contrast.rs`),
* the Typst markup emitter (`src/render/markdown.rs`) restricted to the
  node kinds exercised by the verified properties.

Rust `toml::Value` is embedded as the inductive `Toml`; Rust `HashMap`
and `toml::map::Map` are embedded as association lists (lookup by first
matching key, insert replaces the first matching entry); `f64` is
embedded as `Rat` with the non-linear sRGB gamma branch kept abstract as
a function parameter, which the verified properties never evaluate.
Strings are treated at `Char` granularity.
-/

namespace Silkprint

/-- Embedding of `toml::Value` (the toml crate's value type).
`Float` is embedded as `Rat`; `Datetime` carries its textual form. -/
inductive Toml where
  | str : String → Toml
  | int : Int → Toml
  | float : Rat → Toml
  | boolean : Bool → Toml
  | arr : List Toml → Toml
  | table : List (String × Toml) → Toml
  | datetime : String → Toml

/-- `toml::Value::is_table`. -/
def Toml.isTable : Toml → Bool
  | .table _ => true
  | _ => false

/-- `is_default_value` from `src/theme/mod.rs`: a TOML value is a
"default" (the unset sentinel) when it is an empty string, zero number,
false boolean, or empty collection; datetimes are never default. -/
def isDefaultValue : Toml → Bool
  | .str s => s == ""
  | .int n => n == 0
  | .float f => f == 0
  | .boolean b => !b
  | .arr a => a.isEmpty
  | .table t => t.isEmpty
  | .datetime _ => false

/-- Key lookup in an embedded TOML table (`toml::map::Map::get`):
first entry with a matching key. -/
def lookupEntry : List (String × Toml) → String → Option Toml
  | [], _ => none
  | (k, v) :: rest, key => if k = key then some v else lookupEntry rest key

/-- In-place update through `toml::map::Map::get_mut`: replace the value
of the first entry with the given key. -/
def replaceEntry : List (String × Toml) → String → Toml → List (String × Toml)
  | [], _, _ => []
  | (k, v) :: rest, key, newVal =>
      if k = key then (k, newVal) :: rest
      else (k, v) :: replaceEntry rest key newVal

mutual

/-- `deep_merge_toml` from `src/theme/mod.rs`: tables are merged
recursively; for all other shapes the overlay replaces the base unless
the overlay value is a default (unset) value. -/
def deepMergeToml : Toml → Toml → Toml
  | .table baseTable, .table overlayTable =>
      .table (deepMergeEntries baseTable overlayTable)
  | base, overlay => if isDefaultValue overlay then base else overlay
termination_by structural base overlay => overlay

/-- The `for (key, overlay_val) in overlay_table` loop of
`deep_merge_toml`, processing overlay entries in order: if the base
table has the key (`get_mut`), recurse when both values are tables,
otherwise replace the base value only when the overlay value is not a
default; if the base table lacks the key, insert the overlay value when
it is not a default. -/
def deepMergeEntries : List (String × Toml) → List (String × Toml) → List (String × Toml)
  | baseTable, [] => baseTable
  | baseTable, (key, overlayVal) :: rest =>
      deepMergeEntries
        (match lookupEntry baseTable key with
         | some baseVal =>
             if baseVal.isTable && overlayVal.isTable then
               replaceEntry baseTable key (deepMergeToml baseVal overlayVal)
             else if isDefaultValue overlayVal then baseTable
             else replaceEntry baseTable key overlayVal
         | none =>
             if isDefaultValue overlayVal then baseTable
             else baseTable ++ [(key, overlayVal)])
        rest
termination_by structural baseTable overlayTable => overlayTable

end

/-- `merge_tokens` from `src/theme/mod.rs`: both themes are serialized
to TOML values and deep-merged (serialization of `ThemeTokens` cannot
fail, so the fallback-to-child branch is unreachable; theme token trees
are embedded directly as their TOML serialization). -/
def mergeTokens (base child : Toml) : Toml :=
  deepMergeToml base child

/-- Descend a TOML tree along a path of table keys. -/
def Toml.getPath : Toml → List String → Option Toml
  | v, [] => some v
  | .table entries, k :: ks =>
      match lookupEntry entries k with
      | some v => v.getPath ks
      | none => none
  | _, _ :: _ => none

/-- Keys of a list are pairwise distinct. -/
def keysNodup : List String → Bool
  | [] => true
  | k :: rest => !rest.contains k && keysNodup rest

mutual

/-- Every table anywhere in the TOML tree has pairwise-distinct keys.
This invariant holds of every value produced by the toml crate, whose
table type is a map. -/
def distinctKeysToml : Toml → Bool
  | .table es => keysNodup (es.map Prod.fst) && distinctKeysEntries es
  | .arr vs => distinctKeysList vs
  | _ => true
termination_by structural t => t

/-- `distinctKeysToml` over the values of a table's entries. -/
def distinctKeysEntries : List (String × Toml) → Bool
  | [] => true
  | (_, v) :: rest => distinctKeysToml v && distinctKeysEntries rest
termination_by structural es => es

/-- `distinctKeysToml` over the elements of an array. -/
def distinctKeysList : List Toml → Bool
  | [] => true
  | v :: rest => distinctKeysToml v && distinctKeysList rest
termination_by structural vs => vs

end

/-! ## Theme inheritance resolution (`resolve_inheritance`) -/
/-- The fatal theme errors of `SilkprintError` relevant to inheritance
resolution (`src/error.rs`).  `ThemeNotFound`'s fuzzy suggestion list is
not modelled; `ThemeCycle` and `ThemeInheritanceDepth` carry the
formatted chain description exactly as the Rust code builds it. -/
inductive SilkprintError where
  | themeNotFound : String → SilkprintError
  | themeCycle : String → SilkprintError
  | themeInheritanceDepth : String → SilkprintError
  deriving DecidableEq

/-- Read a string field out of a theme's TOML tree, with serde's
`#[serde(default)]` empty-string default for missing fields. -/
def Toml.getStr (t : Toml) (p : List String) : String :=
  match t.getPath p with
  | some (.str s) => s
  | _ => ""

/-- `tokens.meta.name`. -/
def metaName (t : Toml) : String := t.getStr ["meta", "name"]

/-- `tokens.meta.extends`. -/
def metaExtends (t : Toml) : String := t.getStr ["meta", "extends"]

/-- `MAX_INHERITANCE_DEPTH` from `src/theme/mod.rs`. -/
def MAX_INHERITANCE_DEPTH : Nat := 5

/-- The `loop` of `resolve_inheritance`: follow the `extends` field of
the most recently loaded theme, detecting cycles against the `seen`
name set and capping the chain length at `MAX_INHERITANCE_DEPTH`.
`env` models `load_toml_source ∘ parse_theme_toml` for built-in theme
names (`none` models a load failure mapped to `ThemeNotFound`). -/
def resolveLoop (env : String → Option Toml) (chain : List Toml)
    (seen : List String) : Except SilkprintError (List Toml) :=
  match chain.getLast? with
  | none => .error (.themeCycle "empty chain")
  | some current =>
      let parentName := metaExtends current
      if parentName = "" then .ok chain
      else if parentName ∈ seen then
        .error (.themeCycle
          (String.intercalate " -> " (chain.map metaName) ++ " -> " ++ parentName))
      else if _h5 : MAX_INHERITANCE_DEPTH ≤ chain.length then
        .error (.themeInheritanceDepth
          (String.intercalate " -> " (chain.map metaName)))
      else
        match env parentName with
        | none => .error (.themeNotFound parentName)
        | some parentTokens =>
            resolveLoop env (chain ++ [parentTokens]) (parentName :: seen)
termination_by MAX_INHERITANCE_DEPTH + 1 - chain.length
decreasing_by simp [List.length_append, MAX_INHERITANCE_DEPTH] at *; omega

/-- `resolve_inheritance` from `src/theme/mod.rs`: build the inheritance
chain, then fold it root-first through `merge_tokens`.  The empty-chain
arm after a successful loop is unreachable (the chain always contains
the requested theme); Rust would panic there. -/
def resolveInheritance (env : String → Option Toml) (tokens : Toml) :
    Except SilkprintError Toml :=
  if metaExtends tokens = "" then .ok tokens
  else
    let rootName := metaName tokens
    let seen : List String := if rootName = "" then [] else [rootName]
    match resolveLoop env [tokens] seen with
    | .error e => .error e
    | .ok chain =>
        match chain.reverse with
        | [] => .error (.themeCycle "empty chain")
        | merged :: rest => .ok (rest.foldl mergeTokens merged)

/-- The names the loop pushes into `seen` while loading `rest`. -/
def addChainNames (rest : List Toml) (seen : List String) : List String :=
  rest.foldl (fun s t => metaName t :: s) seen

/-- `rest` is a well-linked tail of the inheritance chain after `cur`:
each theme's `extends` names the next theme, parent names are nonempty,
and the environment loads each parent as itself. -/
def linksFrom (env : String → Option Toml) : Toml → List Toml → Prop
  | _, [] => True
  | cur, p :: rest =>
      metaExtends cur = metaName p ∧ metaName p ≠ "" ∧
      env (metaName p) = some p ∧ linksFrom env p rest

/-- The names of `rest` are fresh: none is in `seen`, and they are
pairwise distinct (each is also fresh for the extended seen set). -/
def freshNames : List Toml → List String → Prop
  | [], _ => True
  | p :: rest, seen => metaName p ∉ seen ∧ freshNames rest (metaName p :: seen)

/-! ## Palette alias resolution (`resolve_color_table`) -/
/-- Rust `str::starts_with(c)`: the string's first character is `c`.
(Embedded at `Char` granularity; `String.startsWith` itself is not used
because its byte-level loop does not reduce in the kernel.) -/
def startsWithChar (c : Char) (s : String) : Bool :=
  s.data.head? == some c

/-- One pass of `resolve_color_table`'s loop.  The Rust loop mutates each
value in place while looking values up in a snapshot taken at the start
of the pass, so the pass is pointwise over the entries and independent
of the `HashMap` iteration order; it is embedded as a `map`. -/
def resolvePass (snapshot : List (String × String)) : List (String × String) :=
  snapshot.map (fun kv =>
    if !startsWithChar '#' kv.2 && kv.2 ≠ "" then
      match List.lookup kv.2 snapshot with
      | some target => if target ≠ kv.2 then (kv.1, target) else kv
      | none => kv
    else kv)

/-- The `for _pass in 0..10` loop of `resolve_color_table`: run passes
until a pass changes nothing (the `changed` flag stays false), for at
most the given fuel. -/
def resolveColorTableLoop : Nat → List (String × String) → List (String × String)
  | 0, resolved => resolved
  | n + 1, resolved =>
      let next := resolvePass resolved
      if next = resolved then resolved else resolveColorTableLoop n next

/-- `resolve_color_table` from `src/theme/mod.rs`: iterate alias
substitution within the `[colors]` table to a fixed point, bounded at
10 passes. -/
def resolveColorTable (colors : List (String × String)) : List (String × String) :=
  resolveColorTableLoop 10 colors

/-- `resolvePass` applied `n` times. -/
def passIter : Nat → List (String × String) → List (String × String)
  | 0, c => c
  | n + 1, c => passIter n (resolvePass c)

/-! ## Contrast auditor (`src/theme/contrast.rs`, `run_contrast_checks`) -/
/-- The warnings of `SilkprintWarning` (`src/warnings.rs`).  `f64`
payloads are embedded as `Rat`.  The `footnoteNotFound` variant is the
one `src/render/markdown.rs` constructs at an unresolved footnote
reference (the declaration in `warnings.rs` omits it, but the emitter
is the authority for its shape). -/
inductive SilkprintWarning where
  | imageNotFound (path : String)
  | fontNotAvailable (name fallback : String)
  | unknownLanguage (lang : String)
  | unrecognizedFrontMatter (field : String)
  | contrastRatio (element : String) (ratio minimum : Rat)
  | remoteImageSkipped (url : String)
  | footnoteNotFound (name : String)
  deriving DecidableEq

/-- `char::to_digit(16)`. -/
def hexDigitVal (c : Char) : Option Nat :=
  if '0' ≤ c ∧ c ≤ '9' then some (c.toNat - '0'.toNat)
  else if 'a' ≤ c ∧ c ≤ 'f' then some (c.toNat - 'a'.toNat + 10)
  else if 'A' ≤ c ∧ c ≤ 'F' then some (c.toNat - 'A'.toNat + 10)
  else none

/-- The digit loop of `u8::from_str_radix(_, 16)` for an unsigned
positive parse: accumulate base-16 digits, failing on a non-digit or on
overflow past `u8::MAX`. -/
def parseHexPos : List Char → Option Nat
  | [] => none
  | ds => ds.foldlM (fun acc c => do
      let d ← hexDigitVal c
      let v := acc * 16 + d
      if v ≤ 255 then some v else none) 0

/-- The digit loop of `u8::from_str_radix(_, 16)` after a `'-'` sign:
for an unsigned type every step does a checked subtraction, so only
all-zero digit strings parse (to 0). -/
def parseHexNeg : List Char → Option Nat
  | [] => none
  | ds => ds.foldlM (fun acc c => do
      let d ← hexDigitVal c
      if acc * 16 ≤ 255 ∧ d ≤ acc * 16 then some (acc * 16 - d) else none) 0

/-- `u8::from_str_radix(s, 16)`: optional sign, then at least one
digit. -/
def fromStrRadix16U8 : List Char → Option Nat
  | [] => none
  | '+' :: ds => parseHexPos ds
  | '-' :: ds => parseHexNeg ds
  | ds => parseHexPos ds

/-- The byte length of a char sequence: the sum of the UTF-8 sizes,
i.e. Rust `str::len`. -/
def byteLen (cs : List Char) : Nat :=
  cs.foldl (fun n c => n + c.utf8Size) 0

/-- Splitting a char sequence at a byte offset, i.e. the Rust slice
pair `(&s[0..n], &s[n..])`: `none` when the offset is not a character
boundary (where Rust slicing panics). -/
def takeBytes : Nat → List Char → Option (List Char × List Char)
  | 0, cs => some ([], cs)
  | _ + 1, [] => none
  | n, c :: cs =>
      if c.utf8Size ≤ n then
        match takeBytes (n - c.utf8Size) cs with
        | some (pre, post) => some (c :: pre, post)
        | none => none
      else none
termination_by structural n cs => cs

/-- `relative_luminance` from `src/theme/contrast.rs`.  `f64` is
embedded as `Rat`; the non-linear branch of the sRGB transform
(`((s + 0.055) / 1.055).powf(2.4)`) is kept abstract as the function
parameter `gamma`, which no verified property evaluates.  The length
check counts bytes (Rust `str::len`), and the byte slices
`&hex[0..2]`, `&hex[2..4]`, `&hex[4..6]` are embedded through
`takeBytes`: an offset that is not a character boundary is the Rust
panic, modelled as `.error ()`.  (The final slice's offsets 4 and 6 are
both boundaries whenever the second slice succeeded, since the total
byte length is 6.) -/
def relativeLuminance (gamma : Rat → Rat) (hex : String) :
    Except Unit (Option Rat) :=
  let hexT := hex.data.dropWhile (· = '#')
  if byteLen hexT ≠ 6 then .ok none
  else
    match takeBytes 2 hexT with
    | none => .error ()
    | some (rcs, rest2) =>
      match fromStrRadix16U8 rcs with
      | none => .ok none
      | some r =>
        match takeBytes 2 rest2 with
        | none => .error ()
        | some (gcs, rest4) =>
          match fromStrRadix16U8 gcs with
          | none => .ok none
          | some g =>
            match fromStrRadix16U8 rest4 with
            | none => .ok none
            | some b =>
              let toLinear : Nat → Rat := fun c =>
                let s : Rat := (c : Rat) / 255
                if s ≤ 0.04045 then s / 12.92 else gamma ((s + 0.055) / 1.055)
              .ok (some (0.2126 * toLinear r + 0.7152 * toLinear g
                + 0.0722 * toLinear b))

/-- `contrast_ratio` from `src/theme/contrast.rs`:
`(lighter + 0.05) / (darker + 0.05)`; a panic in either luminance
computation propagates. -/
def contrastRatio (gamma : Rat → Rat) (fgHex bgHex : String) :
    Except Unit (Option Rat) :=
  match relativeLuminance gamma fgHex with
  | .error e => .error e
  | .ok none => .ok none
  | .ok (some l1) =>
    match relativeLuminance gamma bgHex with
    | .error e => .error e
    | .ok none => .ok none
    | .ok (some l2) =>
      let p := if l1 > l2 then (l1, l2) else (l2, l1)
      .ok (some ((p.1 + 0.05) / (p.2 + 0.05)))

/-- `check_contrast` from `src/theme/contrast.rs`: a warning when the
ratio is computable and below the minimum, `none` otherwise (including
every cleanly unparseable color); a slicing panic propagates. -/
def checkContrast (gamma : Rat → Rat) (element fgHex bgHex : String)
    (minimum : Rat) : Except Unit (Option SilkprintWarning) :=
  match contrastRatio gamma fgHex bgHex with
  | .error e => .error e
  | .ok none => .ok none
  | .ok (some ratio) =>
      if ratio < minimum then .ok (some (.contrastRatio element ratio minimum))
      else .ok none

/-- The body of `run_contrast_checks`'s first loop: skip a pair with an
empty color, otherwise push the contrast warning if the check fails;
a panic in `check_contrast` unwinds. -/
def contrastStep (gamma : Rat → Rat) (ws : List SilkprintWarning)
    (check : String × String × String × Rat) :
    Except Unit (List SilkprintWarning) :=
  if check.2.1 = "" ∨ check.2.2.1 = "" then .ok ws
  else
    match checkContrast gamma check.1 check.2.1 check.2.2.1 check.2.2.2 with
    | .error e => .error e
    | .ok (some warning) => .ok (ws ++ [warning])
    | .ok none => .ok ws

/-- The body of `run_contrast_checks`'s syntax loop: skip when the
syntax color or the code-block background is empty, otherwise check at
minimum 4.5; a panic unwinds. -/
def syntaxStep (gamma : Rat → Rat) (codeBg : String)
    (ws : List SilkprintWarning) (check : String × String) :
    Except Unit (List SilkprintWarning) :=
  if check.2 = "" ∨ codeBg = "" then .ok ws
  else
    match checkContrast gamma check.1 check.2 codeBg 4.5 with
    | .error e => .error e
    | .ok (some warning) => .ok (ws ++ [warning])
    | .ok none => .ok ws

/-- A sequential check loop: stop at the first panicking step (Rust
unwinding), otherwise thread the collector through every step. -/
def foldStepsE {α : Type}
    (f : List SilkprintWarning → α → Except Unit (List SilkprintWarning)) :
    List α → List SilkprintWarning → Except Unit (List SilkprintWarning)
  | [], ws => .ok ws
  | c :: rest, ws =>
      match f ws c with
      | .error e => .error e
      | .ok ws2 => foldStepsE f rest ws2

/-- `run_contrast_checks` from `src/theme/mod.rs`: the fixed checklist
of structural pairs followed by every syntax category against the code
block background; empty colors skip the check, failing checks append a
warning to the collector, and a slicing panic aborts the whole run. -/
def runContrastChecks (gamma : Rat → Rat) (tokens : Toml)
    (warnings : List SilkprintWarning) : Except Unit (List SilkprintWarning) :=
  let pageBg := tokens.getStr ["page", "background"]
  let codeBg := tokens.getStr ["code_block", "background"]
  let checks : List (String × String × String × Rat) :=
    [("body text", tokens.getStr ["text", "color"], pageBg, 4.5),
     ("headings", tokens.getStr ["headings", "color"], pageBg, 3.0),
     ("links", tokens.getStr ["links", "color"], pageBg, 4.5),
     ("blockquote text", tokens.getStr ["blockquote", "text_color"], pageBg, 4.5),
     ("table header", tokens.getStr ["text", "color"],
       tokens.getStr ["table", "header_background"], 4.5),
     ("caption text", tokens.getStr ["images", "caption_color"], pageBg, 4.5),
     ("footnote numbers", tokens.getStr ["footnotes", "number_color"], pageBg, 4.5),
     ("page numbers", tokens.getStr ["page_numbers", "color"], pageBg, 3.0)]
  match foldStepsE (contrastStep gamma) checks warnings with
  | .error e => .error e
  | .ok warnings =>
    let syntaxChecks : List (String × String) :=
      [("syntax: text", tokens.getStr ["syntax", "text", "color"]),
       ("syntax: keyword", tokens.getStr ["syntax", "keyword", "color"]),
       ("syntax: string", tokens.getStr ["syntax", "string", "color"]),
       ("syntax: number", tokens.getStr ["syntax", "number", "color"]),
       ("syntax: function", tokens.getStr ["syntax", "function", "color"]),
       ("syntax: type", tokens.getStr ["syntax", "type", "color"]),
       ("syntax: comment", tokens.getStr ["syntax", "comment", "color"]),
       ("syntax: constant", tokens.getStr ["syntax", "constant", "color"]),
       ("syntax: boolean", tokens.getStr ["syntax", "boolean", "color"]),
       ("syntax: operator", tokens.getStr ["syntax", "operator", "color"]),
       ("syntax: property", tokens.getStr ["syntax", "property", "color"]),
       ("syntax: tag", tokens.getStr ["syntax", "tag", "color"]),
       ("syntax: attribute", tokens.getStr ["syntax", "attribute", "color"]),
       ("syntax: variable", tokens.getStr ["syntax", "variable", "color"]),
       ("syntax: builtin", tokens.getStr ["syntax", "builtin", "color"]),
       ("syntax: punctuation", tokens.getStr ["syntax", "punctuation", "color"]),
       ("syntax: escape", tokens.getStr ["syntax", "escape", "color"])]
    foldStepsE (syntaxStep gamma codeBg) syntaxChecks warnings

/-- A theme whose body text and page background are both black: the
body-text contrast ratio is exactly 1, below every minimum. -/
def lowContrastTokens : Toml :=
  .table [("text", .table [("color", .str "#000000")]),
          ("page", .table [("background", .str "#000000")])]

/-- A theme whose body text color is not a parseable 6-digit hex
color (all ASCII, so the length and boundary checks pass cleanly). -/
def malformedColorTokens : Toml :=
  .table [("text", .table [("color", .str "notacolor")]),
          ("page", .table [("background", .str "#000000")])]

/-- A theme whose body text color is exactly 6 bytes but only 5
characters: "aαbcd" passes the `len() != 6` check, and byte offset 2
falls inside the two-byte character 'α', so `&hex[0..2]` panics. -/
def panicColorTokens : Toml :=
  .table [("text", .table [("color", .str "aαbcd")]),
          ("page", .table [("background", .str "#000000")])]

/-! ## Markup emitter (`src/render/markdown.rs`)

The comrak AST is embedded as the inductive `Node`, restricted to the
node kinds the verified properties exercise (document, paragraph,
heading, thematic break, text, breaks, strong/emph, code block, table,
footnote definition/reference).  On this fragment the inline-HTML
accumulation of `emit_children` is vacuous (there are no `HtmlInline`
nodes), so `emit_children` and the explicit child loops coincide with
sequential emission. -/
/-- `comrak::nodes::TableAlignment`. -/
inductive TableAlignment where
  | none
  | left
  | center
  | right
  deriving DecidableEq

/-- The comrak AST as `extract_node` reads it: every variant of
`ExtractedNode` from `src/render/markdown.rs` (which itself mirrors
comrak's `NodeValue`), with each node's child list attached. -/
inductive Node where
  | document (children : List Node)
  | frontMatter
  | paragraph (children : List Node)
  | heading (level : Nat) (children : List Node)
  | thematicBreak
  | text (content : String)
  | softBreak
  | lineBreak
  | strong (children : List Node)
  | emph (children : List Node)
  | strikethrough (children : List Node)
  | underline (children : List Node)
  | superscript (children : List Node)
  | subscript (children : List Node)
  | highlight (children : List Node)
  | code (literal : String) (numBackticks : Nat)
  | link (url : String) (children : List Node)
  | image (url : String) (children : List Node)
  | wikiLink (url : String) (children : List Node)
  | blockQuote (children : List Node)
  | multilineBlockQuote (children : List Node)
  | list (isOrdered tight : Bool) (start : Nat) (children : List Node)
  | item (children : List Node)
  | taskItem (checked : Bool) (children : List Node)
  | codeBlock (info literal : String)
  | htmlBlock (literal : String)
  | htmlInline (content : String)
  | table (alignments : List TableAlignment) (numColumns : Nat) (children : List Node)
  | tableRow (isHeader : Bool) (children : List Node)
  | tableCell (children : List Node)
  | footnoteDefinition (name : String) (children : List Node)
  | footnoteReference (name : String)
  | math (literal : String) (display : Bool)
  | alert (title icon : String) (children : List Node)
  | descriptionList (children : List Node)
  | descriptionItem (children : List Node)
  | descriptionTerm (children : List Node)
  | descriptionDetails (children : List Node)
  | shortCode (emoji : String)
  | escaped (children : List Node)
  | escapedTag (children : List Node)
  | spoileredText (children : List Node)
  | subtext (children : List Node)
  | raw (content : String)

/-- The child list of a node. -/
def Node.children : Node → List Node
  | .document cs => cs
  | .paragraph cs => cs
  | .heading _ cs => cs
  | .strong cs => cs
  | .emph cs => cs
  | .strikethrough cs => cs
  | .underline cs => cs
  | .superscript cs => cs
  | .subscript cs => cs
  | .highlight cs => cs
  | .link _ cs => cs
  | .image _ cs => cs
  | .wikiLink _ cs => cs
  | .blockQuote cs => cs
  | .multilineBlockQuote cs => cs
  | .list _ _ _ cs => cs
  | .item cs => cs
  | .taskItem _ cs => cs
  | .table _ _ cs => cs
  | .tableRow _ cs => cs
  | .tableCell cs => cs
  | .footnoteDefinition _ cs => cs
  | .alert _ _ cs => cs
  | .descriptionList cs => cs
  | .descriptionItem cs => cs
  | .descriptionTerm cs => cs
  | .descriptionDetails cs => cs
  | .escaped cs => cs
  | .escapedTag cs => cs
  | .spoileredText cs => cs
  | .subtext cs => cs
  | _ => []

/-- `ExtractedNode::Paragraph`? (the tight-list unwrap test of
`emit_list_item_children`). -/
def isParagraphNode : Node → Bool
  | .paragraph _ => true
  | _ => false

mutual

/-- comrak's `Node::descendants`: the node itself followed by all
descendants in document (preorder) order. -/
def descendants : Node → List Node
  | .document cs => .document cs :: descendantsList cs
  | .frontMatter => [.frontMatter]
  | .paragraph cs => .paragraph cs :: descendantsList cs
  | .heading l cs => .heading l cs :: descendantsList cs
  | .thematicBreak => [.thematicBreak]
  | .text s => [.text s]
  | .softBreak => [.softBreak]
  | .lineBreak => [.lineBreak]
  | .strong cs => .strong cs :: descendantsList cs
  | .emph cs => .emph cs :: descendantsList cs
  | .strikethrough cs => .strikethrough cs :: descendantsList cs
  | .underline cs => .underline cs :: descendantsList cs
  | .superscript cs => .superscript cs :: descendantsList cs
  | .subscript cs => .subscript cs :: descendantsList cs
  | .highlight cs => .highlight cs :: descendantsList cs
  | .code l nb => [.code l nb]
  | .link u cs => .link u cs :: descendantsList cs
  | .image u cs => .image u cs :: descendantsList cs
  | .wikiLink u cs => .wikiLink u cs :: descendantsList cs
  | .blockQuote cs => .blockQuote cs :: descendantsList cs
  | .multilineBlockQuote cs => .multilineBlockQuote cs :: descendantsList cs
  | .list o t s cs => .list o t s cs :: descendantsList cs
  | .item cs => .item cs :: descendantsList cs
  | .taskItem ck cs => .taskItem ck cs :: descendantsList cs
  | .codeBlock i l => [.codeBlock i l]
  | .htmlBlock l => [.htmlBlock l]
  | .htmlInline s => [.htmlInline s]
  | .table a n cs => .table a n cs :: descendantsList cs
  | .tableRow h cs => .tableRow h cs :: descendantsList cs
  | .tableCell cs => .tableCell cs :: descendantsList cs
  | .footnoteDefinition nm cs => .footnoteDefinition nm cs :: descendantsList cs
  | .footnoteReference nm => [.footnoteReference nm]
  | .math l d => [.math l d]
  | .alert t i cs => .alert t i cs :: descendantsList cs
  | .descriptionList cs => .descriptionList cs :: descendantsList cs
  | .descriptionItem cs => .descriptionItem cs :: descendantsList cs
  | .descriptionTerm cs => .descriptionTerm cs :: descendantsList cs
  | .descriptionDetails cs => .descriptionDetails cs :: descendantsList cs
  | .shortCode e => [.shortCode e]
  | .escaped cs => .escaped cs :: descendantsList cs
  | .escapedTag cs => .escapedTag cs :: descendantsList cs
  | .spoileredText cs => .spoileredText cs :: descendantsList cs
  | .subtext cs => .subtext cs :: descendantsList cs
  | .raw s => [.raw s]
termination_by structural n => n

/-- `descendants` over a child list, in order. -/
def descendantsList : List Node → List Node
  | [] => []
  | n :: rest => descendants n ++ descendantsList rest
termination_by structural l => l

end

/-- `escape_typst_content` from `src/render/escape.rs`: prefix each of
the nine Typst-special characters with a backslash. -/
def escapeTypstContent (s : String) : String :=
  ⟨s.data.flatMap (fun c =>
    match c with
    | '#' | '*' | '_' | '@' | '<' | '>' | '$' | '\\' | '~' => ['\\', c]
    | _ => [c])⟩

/-- Rust `char::is_whitespace`: the Unicode `White_Space` property
(the full code point list, not only the ASCII subset). -/
def isUnicodeWhitespace (c : Char) : Bool :=
  ([0x9, 0xA, 0xB, 0xC, 0xD, 0x20, 0x85, 0xA0, 0x1680,
    0x2000, 0x2001, 0x2002, 0x2003, 0x2004, 0x2005, 0x2006, 0x2007,
    0x2008, 0x2009, 0x200A, 0x2028, 0x2029, 0x202F, 0x205F,
    0x3000] : List Nat).contains c.toNat

/-- Rust `str::trim`: drop Unicode `White_Space` characters from both
ends. -/
def strTrim (s : String) : String :=
  ⟨((s.data.dropWhile isUnicodeWhitespace).reverse.dropWhile
      isUnicodeWhitespace).reverse⟩

/-- `escape_typst_string` from `src/render/escape.rs`:
`s.replace('\\', "\\\\").replace('"', "\\\"")` — first double every
backslash, then escape every double quote in the result. -/
def escapeTypstString (s : String) : String :=
  ⟨(s.data.flatMap (fun c => if c = '\\' then ['\\', '\\'] else [c])).flatMap
    (fun c => if c = '"' then ['\\', '"'] else [c])⟩

/-- Rust `str::starts_with(pat)` for a string pattern. -/
def strStartsWith (s pat : String) : Bool :=
  pat.data.isPrefixOf s.data

/-- Rust `str::ends_with(pat)` for a string pattern. -/
def strEndsWith (s pat : String) : Bool :=
  pat.data.reverse.isPrefixOf s.data.reverse

/-- `is_opening_html_tag` from `src/render/markdown.rs`: starts with
`<` but not `</`, does not end with `/>`, is longer than 2 bytes, and
ends with `>`. -/
def isOpeningHtmlTag (s : String) : Bool :=
  strStartsWith s "<" && !strStartsWith s "</" && !strEndsWith s "/>"
    && decide (2 < byteLen s.data) && strEndsWith s ">"

/-- `is_closing_html_tag` from `src/render/markdown.rs`. -/
def isClosingHtmlTag (s : String) : Bool :=
  strStartsWith s "</" && strEndsWith s ">"

/-- `char::to_digit(10)`. -/
def decDigitVal (c : Char) : Option Nat :=
  if '0' ≤ c ∧ c ≤ '9' then some (c.toNat - '0'.toNat) else none

/-- The digit loop of `u32::from_str_radix` without a sign: checked
accumulation, failing on a non-digit or on overflow past `u32::MAX`. -/
def parseU32Pos (digit : Char → Option Nat) (radix : Nat) :
    List Char → Option Nat
  | [] => none
  | ds => ds.foldlM (fun acc c => do
      let d ← digit c
      let v := acc * radix + d
      if v ≤ 4294967295 then some v else none) 0

/-- The digit loop of `u32::from_str_radix` after a `'-'` sign: for an
unsigned type every step is a checked subtraction, so only all-zero
digit strings parse (to 0). -/
def parseU32Neg (digit : Char → Option Nat) (radix : Nat) :
    List Char → Option Nat
  | [] => none
  | ds => ds.foldlM (fun acc c => do
      let d ← digit c
      if acc * radix ≤ 4294967295 ∧ d ≤ acc * radix
      then some (acc * radix - d) else none) 0

/-- `u32::from_str_radix` / `str::parse::<u32>`: optional sign, then at
least one digit. -/
def parseU32Radix (digit : Char → Option Nat) (radix : Nat) :
    List Char → Option Nat
  | '+' :: ds => parseU32Pos digit radix ds
  | '-' :: ds => parseU32Neg digit radix ds
  | ds => parseU32Pos digit radix ds

/-- `char::from_u32`: `none` on surrogates and out-of-range values. -/
def charFromU32 (n : Nat) : Option Char :=
  if Nat.isValidChar n then some (Char.ofNat n) else none

/-- `decode_html_entity` from `src/render/markdown.rs`: the named
entity table, then `&#xHH;` and `&#DD;` numeric entities (parse
failures and invalid code points fall through), else the content
escaped. -/
def decodeHtmlEntity (s : String) : String :=
  match s with
  | "&amp;" => "&"
  | "&lt;" => "<"
  | "&gt;" => ">"
  | "&quot;" => "\""
  | "&#39;" => "'"
  | "&apos;" => "'"
  | "&nbsp;" => "\u00A0"
  | "&mdash;" => "—"
  | "&ndash;" => "–"
  | "&hellip;" => "…"
  | "&laquo;" => "«"
  | "&raquo;" => "»"
  | "&copy;" => "©"
  | "&reg;" => "®"
  | "&trade;" => "™"
  | "&times;" => "×"
  | "&divide;" => "÷"
  | _ =>
    let d := s.data
    let viaHex : Option Char :=
      if d.take 3 = ['&', '#', 'x'] ∧ d.getLast? = some ';' then
        match parseU32Radix hexDigitVal 16 ((d.drop 3).dropLast) with
        | some code => charFromU32 code
        | none => none
      else none
    match viaHex with
    | some c => ⟨[c]⟩
    | none =>
      let viaDec : Option Char :=
        if d.take 2 = ['&', '#'] ∧ d.getLast? = some ';' then
          match parseU32Radix decDigitVal 10 ((d.drop 2).dropLast) with
          | some code => charFromU32 code
          | none => none
        else none
      match viaDec with
      | some c => ⟨[c]⟩
      | none => escapeTypstContent s

/-- `collect_text` from `src/render/markdown.rs`: concatenate the text
of every `Text` descendant into the buffer. -/
def collectText (node : Node) (buf : String) : String :=
  (descendants node).foldl (fun b child =>
    match child with
    | .text t => b ++ t
    | _ => b) buf

/-- `has_empty_header` from `src/render/markdown.rs`: the table's first
child is a header row and every header cell's flattened text is blank
after trimming. -/
def hasEmptyHeader (tableNode : Node) : Bool :=
  match tableNode.children.head? with
  | some (.tableRow true cells) =>
      cells.all (fun cell => strTrim (collectText cell "") == "")
  | _ => false

/-- The longest run of backticks in the content: the `max_run` /
`current_run` scan of `backtick_fence`. -/
def maxBacktickRun (content : String) : Nat :=
  (content.data.foldl (fun acc c =>
    if c = '`' then
      (max acc.1 (acc.2 + 1), acc.2 + 1)
    else (acc.1, 0)) ((0 : Nat), (0 : Nat))).1

/-- `backtick_fence` from `src/render/markdown.rs`: one more backtick
than the longest run in the content, with a minimum of three. -/
def backtickFence (content : String) : String :=
  ⟨List.replicate (max (maxBacktickRun content) 2 + 1) '`'⟩

/-- `MERMAID_VPATH_PREFIX` from `src/render/mermaid.rs`. -/
def MERMAID_VPATH_PREFIX : String := "/__mermaid_"

/-- The Typst spelling of a column alignment (the `align_strs` map in
the table arm of `emit_node`). -/
def alignStr : TableAlignment → String
  | .left => "left"
  | .center => "center"
  | .right => "right"
  | .none => "auto"

/-- `TableRow(true)`: the row is a header row. -/
def isHeaderRow : Node → Bool
  | .tableRow true _ => true
  | _ => false

/-- `EmitContext` from `src/render/markdown.rs`: the mutable state
threaded through the tree walk (the `&mut WarningCollector` is embedded
as the `warnings` list). -/
structure EmitContext where
  out : String
  indent : Nat
  footnotes : List (String × String)
  tableAlignments : List TableAlignment
  tableCellIndex : Nat
  inTableHeader : Bool
  inTightList : Bool
  warnings : List SilkprintWarning
  mermaidSources : List String
  mermaidCounter : Nat

/-- `EmitContext::push`. -/
def EmitContext.push (ctx : EmitContext) (s : String) : EmitContext :=
  { ctx with out := ctx.out ++ s }

/-- `EmitContext::newline`. -/
def EmitContext.newline (ctx : EmitContext) : EmitContext :=
  { ctx with out := ctx.out ++ "\n" }

/-- `EmitContext::push_indent`: two spaces per indent level. -/
def EmitContext.pushIndent (ctx : EmitContext) : EmitContext :=
  ctx.push ⟨List.replicate (2 * ctx.indent) ' '⟩

/-- The HTML→Typst converters `emit_html_inline` and `emit_html_block`
live in `src/render/html.rs`, outside the emitter under verification;
they are pure functions of the HTML fragment that return the converted
markup and the warnings they push, and the emitter is parametric in
them (like the sRGB `gamma`). -/
structure HtmlConv where
  inline : String → String × List SilkprintWarning
  block : String → String × List SilkprintWarning

/-- Push the inline-converted HTML fragment and collect the converter's
warnings (`ctx.push(&emit_html_inline(buf, ctx.warnings))`). -/
def pushHtmlInline (hc : HtmlConv) (buf : String) (ctx : EmitContext) :
    EmitContext :=
  let r := hc.inline buf
  { ctx with out := ctx.out ++ r.1, warnings := ctx.warnings ++ r.2 }

/-- The `HtmlInline` arm of `emit_node`: a fragment that starts with
`<` and is longer than one byte goes through the inline converter,
anything else is decoded as an entity. -/
def emitHtmlInlineNode (hc : HtmlConv) (s : String) (ctx : EmitContext) :
    EmitContext :=
  if strStartsWith s "<" && decide (1 < byteLen s.data) then
    pushHtmlInline hc s ctx
  else ctx.push (decodeHtmlEntity s)

mutual

/-- `emit_node` from `src/render/markdown.rs`: one arm per
`ExtractedNode` variant. -/
def emitNode (hc : HtmlConv) : Node → EmitContext → EmitContext
  | .frontMatter, ctx => ctx
  | .footnoteDefinition _ _, ctx => ctx
  | .paragraph cs, ctx =>
      let ctx := if !ctx.inTightList then ctx.newline else ctx
      let ctx := emitChildren hc cs ctx
      if !ctx.inTightList then ctx.newline else ctx
  | .heading level cs, ctx =>
      let ctx := ctx.newline
      let ctx := ctx.push ⟨List.replicate level '='⟩
      let ctx := ctx.push " "
      let ctx := emitChildren hc cs ctx
      ctx.newline
  | .thematicBreak, ctx => (ctx.newline).push "#line(length: 100%)\n"
  | .text t, ctx => ctx.push (escapeTypstContent t)
  | .softBreak, ctx => ctx.push "\n"
  | .lineBreak, ctx => ctx.push " \\\n"
  | .strong cs, ctx => (emitChildren hc cs (ctx.push "*")).push "*"
  | .emph cs, ctx => (emitChildren hc cs (ctx.push "_")).push "_"
  | .strikethrough cs, ctx =>
      (emitChildren hc cs (ctx.push "#strike[")).push "]"
  | .spoileredText cs, ctx =>
      (emitChildren hc cs (ctx.push "#strike[")).push "]"
  | .underline cs, ctx =>
      (emitChildren hc cs (ctx.push "#underline[")).push "]"
  | .superscript cs, ctx =>
      (emitChildren hc cs (ctx.push "#super[")).push "]"
  | .subscript cs, ctx => (emitChildren hc cs (ctx.push "#sub[")).push "]"
  | .subtext cs, ctx => (emitChildren hc cs (ctx.push "#sub[")).push "]"
  | .highlight cs, ctx =>
      (emitChildren hc cs (ctx.push "#highlight[")).push "]"
  | .code literal numBackticks, ctx =>
      let ticks : String := ⟨List.replicate (max numBackticks 1) '`'⟩
      if literal.data.head? = some '`' ∨ literal.data.getLast? = some '`' then
        ctx.push (ticks ++ " " ++ literal ++ " " ++ ticks)
      else ctx.push (ticks ++ literal ++ ticks)
  | .link url cs, ctx =>
      (emitChildren hc cs
        (ctx.push ("#link(\"" ++ escapeTypstString url ++ "\")["))).push "]"
  | .wikiLink url cs, ctx =>
      (emitChildren hc cs
        (ctx.push ("#link(\"" ++ escapeTypstString url ++ "\")["))).push "]"
  | .image url cs, ctx =>
      if strStartsWith url "http://" || strStartsWith url "https://" then ctx
      else
        let ctx := ctx.push "\n#figure(\n"
        let ctx := ctx.push ("  image(\"" ++ escapeTypstString url
          ++ "\", width: 100%),\n")
        let alt := collectText (.image url cs) ""
        let ctx :=
          if alt ≠ "" then
            ctx.push ("  caption: [" ++ escapeTypstContent alt ++ "],\n")
          else ctx
        ctx.push ")\n"
  | .blockQuote cs, ctx =>
      (emitChildren hc cs ((ctx.newline).push "#quote(block: true)[\n")).push "]\n"
  | .multilineBlockQuote cs, ctx =>
      (emitChildren hc cs ((ctx.newline).push "#quote(block: true)[\n")).push "]\n"
  | .list isOrdered tight start cs, ctx =>
      let prevTight := ctx.inTightList
      let ctx := { ctx with inTightList := tight }
      let ctx := ctx.newline
      let ctx :=
        if isOrdered && decide (1 < start) then
          ctx.push ("#set enum(start: " ++ toString start ++ ")\n")
        else ctx
      let ctx := emitListChildren hc isOrdered cs ctx
      { ctx with inTightList := prevTight }
  | .item cs, ctx => emitChildren hc cs ctx
  | .taskItem _ cs, ctx => emitChildren hc cs ctx
  | .document cs, ctx => emitChildren hc cs ctx
  | .escaped cs, ctx => emitChildren hc cs ctx
  | .escapedTag cs, ctx => emitChildren hc cs ctx
  | .codeBlock info literal, ctx =>
      let lang : String := ⟨info.data.takeWhile (fun c => c ≠ ' ' ∧ c ≠ ',' ∧ c ≠ '\t')⟩
      if lang = "mermaid" then
        let idx := ctx.mermaidCounter
        let ctx := { ctx with
          mermaidCounter := ctx.mermaidCounter + 1,
          mermaidSources := ctx.mermaidSources ++ [literal] }
        let ctx := ctx.newline
        ctx.push ("#align(center)[#image(\"" ++ MERMAID_VPATH_PREFIX
          ++ toString idx ++ ".svg\")]\n")
      else
        let fence := backtickFence literal
        let ctx := ctx.newline
        let ctx :=
          if lang = "" then ctx.push (fence ++ "\n")
          else ctx.push (fence ++ lang ++ "\n")
        let content : String :=
          if literal.data.getLast? = some '\n' then ⟨literal.data.dropLast⟩
          else literal
        let ctx := ctx.push content
        let ctx := ctx.newline
        ctx.push (fence ++ "\n")
  | .htmlBlock literal, ctx =>
      let r := hc.block literal
      { ctx with out := ctx.out ++ r.1, warnings := ctx.warnings ++ r.2 }
  | .htmlInline s, ctx => emitHtmlInlineNode hc s ctx
  | .table aligns ncols rows, ctx =>
      let ctx := { ctx with tableAlignments := aligns }
      let ctx := ctx.newline
      let emptyHeader := hasEmptyHeader (.table aligns ncols rows)
      let alignList := String.intercalate ", " (aligns.map alignStr)
      let ctx :=
        if emptyHeader then
          let ctx := ctx.push "#\x7b\n"
          let ctx := ctx.push "show table.cell.where(y: 0): set text(weight: 400)\n"
          let ctx := ctx.push
            "show table.cell.where(y: 0): set table.cell(fill: none, stroke: none)\n"
          ctx.push ("table(\n  columns: " ++ toString ncols
            ++ ",\n  align: (" ++ alignList ++ ",),\n")
        else
          ctx.push ("#table(\n  columns: " ++ toString ncols
            ++ ",\n  align: (" ++ alignList ++ ",),\n")
      let ctx := emitTableChildren hc emptyHeader rows ctx
      let ctx := ctx.push ")\n"
      let ctx := if emptyHeader then ctx.push "\x7d\n" else ctx
      { ctx with tableAlignments := [] }
  | .tableRow isHeader cs, ctx =>
      let ctx := { ctx with inTableHeader := isHeader, tableCellIndex := 0 }
      emitNodes hc cs ctx
  | .tableCell cs, ctx =>
      let ctx := ctx.push "  ["
      let ctx := emitChildren hc cs ctx
      let ctx := ctx.push "],\n"
      { ctx with tableCellIndex := ctx.tableCellIndex + 1 }
  | .footnoteReference name, ctx =>
      match List.lookup name ctx.footnotes with
      | some content => ctx.push ("#footnote[" ++ strTrim content ++ "]")
      | none =>
          let ctx := ctx.push ("#super[" ++ escapeTypstContent name ++ "]")
          { ctx with warnings := ctx.warnings ++ [.footnoteNotFound name] }
  | .math literal display, ctx =>
      if display then ctx.push ("$ " ++ strTrim literal ++ " $")
      else ctx.push ("$" ++ strTrim literal ++ "$")
  | .alert title icon cs, ctx =>
      let ctx := ctx.newline
      let ctx := ctx.push "#block(\n"
      let ctx := ctx.push "  stroke: (left: 3pt + rgb(\"#4a5dbd\")),\n"
      let ctx := ctx.push "  radius: (right: 4pt),\n"
      let ctx := ctx.push "  inset: 12pt,\n"
      let ctx := ctx.push "  width: 100%,\n"
      let ctx := ctx.push ")[\n"
      let ctx := ctx.push ("  *" ++ icon ++ " " ++ title ++ "* \\\n")
      let ctx := emitChildren hc cs ctx
      ctx.push "]\n"
  | .descriptionList cs, ctx => emitNodes hc cs (ctx.newline)
  | .descriptionItem cs, ctx => emitNodes hc cs ctx
  | .descriptionTerm cs, ctx => emitChildren hc cs (ctx.push "\n/ ")
  | .descriptionDetails cs, ctx =>
      (emitChildren hc cs (ctx.push ": ")).newline
  | .shortCode emoji, ctx => ctx.push emoji
  | .raw s, ctx => ctx.push s
termination_by structural n ctx => n

/-- The explicit `for child { emit_node(child) }` loops of `emit_node`
(table rows, description lists and items): sequential emission without
HTML accumulation. -/
def emitNodes (hc : HtmlConv) : List Node → EmitContext → EmitContext
  | [], ctx => ctx
  | n :: rest, ctx => emitNodes hc rest (emitNode hc n ctx)
termination_by structural l ctx => l

/-- `emit_children` from `src/render/markdown.rs`: sequential emission,
except that an opening inline HTML tag starts accumulating adjacent
`HtmlInline`/`Text` siblings until the tag stack balances. -/
def emitChildren (hc : HtmlConv) : List Node → EmitContext → EmitContext
  | [], ctx => ctx
  | .htmlInline s :: rest, ctx =>
      if isOpeningHtmlTag s then htmlAccum hc rest s 1 ctx
      else emitChildren hc rest (emitHtmlInlineNode hc s ctx)
  | n :: rest, ctx => emitChildren hc rest (emitNode hc n ctx)
termination_by structural l ctx => l

/-- The accumulation loop of `emit_children`: extend the buffer over
`HtmlInline` and `Text` siblings, tracking tag depth (saturating on
closers), flush through the inline converter when the stack balances,
when a non-HTML/text sibling breaks the run (resuming at that node), or
when the children run out. -/
def htmlAccum (hc : HtmlConv) : List Node → String → Nat → EmitContext →
    EmitContext
  | [], buf, _, ctx => pushHtmlInline hc buf ctx
  | .htmlInline s :: rest, buf, depth, ctx =>
      let depth2 :=
        if isOpeningHtmlTag s then depth + 1
        else if isClosingHtmlTag s then depth - 1
        else depth
      if depth2 = 0 then emitChildren hc rest (pushHtmlInline hc (buf ++ s) ctx)
      else htmlAccum hc rest (buf ++ s) depth2 ctx
  | .text t :: rest, buf, depth, ctx =>
      htmlAccum hc rest (buf ++ t) depth ctx
  | n :: rest, buf, _, ctx =>
      emitChildren hc rest (emitNode hc n (pushHtmlInline hc buf ctx))
termination_by structural l buf depth ctx => l

/-- The child loop of the `List` arm: items and task items get their
marker, indentation and tight/loose handling; any other child is
emitted as itself. -/
def emitListChildren (hc : HtmlConv) (isOrdered : Bool) :
    List Node → EmitContext → EmitContext
  | [], ctx => ctx
  | .item ics :: rest, ctx =>
      let ctx := ctx.pushIndent
      let ctx := ctx.push (if isOrdered then "+ " else "- ")
      let ctx := { ctx with indent := ctx.indent + 1 }
      let ctx := emitListItemChildren hc ics ctx
      let ctx := { ctx with indent := ctx.indent - 1 }
      emitListChildren hc isOrdered rest ctx.newline
  | .taskItem checked ics :: rest, ctx =>
      let ctx := ctx.pushIndent
      let ctx := ctx.push (if checked then "#box[\\u\x7b2611\x7d] "
        else "#box[\\u\x7b2610\x7d] ")
      let ctx := { ctx with indent := ctx.indent + 1 }
      let ctx := emitListItemChildren hc ics ctx
      let ctx := { ctx with indent := ctx.indent - 1 }
      emitListChildren hc isOrdered rest ctx.newline
  | n :: rest, ctx => emitListChildren hc isOrdered rest (emitNode hc n ctx)
termination_by structural l ctx => l

/-- `emit_list_item_children`: in a tight list a paragraph child is
unwrapped (its children emitted inline); a paragraph in a loose list
goes through `emit_node`, whose `Paragraph` arm is inlined here
verbatim (the newline wrapping re-reads the tight flag, as the source
does). -/
def emitListItemChildren (hc : HtmlConv) : List Node → EmitContext →
    EmitContext
  | [], ctx => ctx
  | .paragraph pcs :: rest, ctx =>
      if ctx.inTightList then
        emitListItemChildren hc rest (emitChildren hc pcs ctx)
      else
        emitListItemChildren hc rest
          (let ctx1 := if !ctx.inTightList then ctx.newline else ctx
           let ctx2 := emitChildren hc pcs ctx1
           if !ctx2.inTightList then ctx2.newline else ctx2)
  | n :: rest, ctx => emitListItemChildren hc rest (emitNode hc n ctx)
termination_by structural l ctx => l

/-- The table arm's child loop: skip the header row entirely when the
header is effectively empty. -/
def emitTableChildren (hc : HtmlConv) : Bool → List Node → EmitContext →
    EmitContext
  | _, [], ctx => ctx
  | emptyHeader, n :: rest, ctx =>
      if emptyHeader && isHeaderRow n then
        emitTableChildren hc emptyHeader rest ctx
      else emitTableChildren hc emptyHeader rest (emitNode hc n ctx)
termination_by structural eh l ctx => l

end

/-- `HashMap::insert`: replace the entry with the given key, or append
a new one. -/
def insertFootnote : List (String × String) → String → String → List (String × String)
  | [], name, content => [(name, content)]
  | (k, v) :: rest, name, content =>
      if k = name then (k, content) :: rest
      else (k, v) :: insertFootnote rest name content

/-- The loop body of `collect_footnote_definitions`: at a footnote
definition, render its body with the footnotes collected so far
(sharing the warning collector, discarding mermaid side effects) and
store it under the footnote's name; other nodes are skipped. -/
def collectStep (hc : HtmlConv)
    (acc : List (String × String) × List SilkprintWarning)
    (n : Node) : List (String × String) × List SilkprintWarning :=
  match n with
  | .footnoteDefinition name cs =>
      let fnCtx : EmitContext :=
        { out := "", indent := 0, footnotes := acc.1, tableAlignments := [],
          tableCellIndex := 0, inTableHeader := false, inTightList := false,
          warnings := acc.2, mermaidSources := [], mermaidCounter := 0 }
      let r := emitChildren hc cs fnCtx
      (insertFootnote acc.1 name r.out, r.warnings)
  | _ => acc

/-- `collect_footnote_definitions` from `src/render/markdown.rs`
(pass 1): walk all descendants in document order collecting rendered
footnote definition bodies. -/
def collectFootnoteDefinitions (hc : HtmlConv) (root : Node)
    (warnings : List SilkprintWarning) :
    List (String × String) × List SilkprintWarning :=
  (descendants root).foldl (collectStep hc) ([], warnings)

/-- `ResolvedTheme` from `src/theme/mod.rs`. -/
structure ResolvedTheme where
  tokens : Toml
  tmthemeXml : String

/-- `emit_typst` from `src/render/markdown.rs`: pass 1 collects the
footnote map, pass 2 emits; the result is the markup text, the mermaid
source list, and the final warning collector state.  The theme
parameter is ignored (`_theme` in the Rust signature). -/
def emitTypst (hc : HtmlConv) (root : Node) (_theme : ResolvedTheme)
    (warnings : List SilkprintWarning) :
    String × List String × List SilkprintWarning :=
  let collected := collectFootnoteDefinitions hc root warnings
  let ctx : EmitContext :=
    { out := "", indent := 0, footnotes := collected.1, tableAlignments := [],
      tableCellIndex := 0, inTableHeader := false, inTightList := false,
      warnings := collected.2, mermaidSources := [], mermaidCounter := 0 }
  let r := emitNode hc root ctx
  (r.out, r.mermaidSources, r.warnings)

/-- A theme value for concrete emission instances. -/
def emptyTheme : ResolvedTheme := ⟨.table [], ""⟩

/-! ## Concrete themes and environments used by witnesses -/
/-- A minimal theme TOML tree carrying only `meta.name` and
`meta.extends`. -/
def mkTheme (name ext : String) : Toml :=
  .table [("meta", .table [("name", .str name), ("extends", .str ext)])]

/-- Built-in catalog for a six-theme chain a → b → c → d → e → f,
where f ends the chain. -/
def chainSixEnv : String → Option Toml := fun n =>
  if n = "b" then some (mkTheme "b" "c")
  else if n = "c" then some (mkTheme "c" "d")
  else if n = "d" then some (mkTheme "d" "e")
  else if n = "e" then some (mkTheme "e" "f")
  else if n = "f" then some (mkTheme "f" "")
  else none

/-- Built-in catalog for a five-theme chain p → q → r → s → t. -/
def chainFiveEnv : String → Option Toml := fun n =>
  if n = "q" then some (mkTheme "q" "r")
  else if n = "r" then some (mkTheme "r" "s")
  else if n = "s" then some (mkTheme "s" "t")
  else if n = "t" then some (mkTheme "t" "")
  else none

/-- Catalog for a chain a → b → c → d → e → f where f extends b again:
the repeated name sits beyond the depth cap. -/
def lateRepeatEnv : String → Option Toml := fun n =>
  if n = "b" then some (mkTheme "b" "c")
  else if n = "c" then some (mkTheme "c" "d")
  else if n = "d" then some (mkTheme "d" "e")
  else if n = "e" then some (mkTheme "e" "f")
  else if n = "f" then some (mkTheme "f" "b")
  else none

/-- Catalog for the two-theme cycle A ⇄ B. -/
def twoCycleEnv : String → Option Toml := fun n =>
  if n = "B" then some (mkTheme "B" "A")
  else if n = "A" then some (mkTheme "A" "B")
  else none

/-- A document whose footnote definition appears after the first
reference bearing the same name. -/
def docForwardRef : Node := .document
  [.paragraph [.text "x", .footnoteReference "1"],
   .footnoteDefinition "1" [.paragraph [.text "note body"]]]

/-- A document with a footnote reference that matches no definition. -/
def docMissingRef : Node := .document
  [.paragraph [.text "x", .footnoteReference "missing"]]

/-- A document where a reference to footnote "2" sits inside the body
of footnote definition "1", and definition "2" appears later in the
tree. -/
def docNestedRef : Node := .document
  [.footnoteDefinition "1" [.paragraph [.footnoteReference "2"]],
   .footnoteDefinition "2" [.paragraph [.text "late"]],
   .paragraph [.footnoteReference "1"]]

/-- A concrete converter pair for closed emission instances on
HTML-free documents (where the converters are never invoked). -/
def plainHtml : HtmlConv := ⟨fun s => (s, []), fun s => (s, [])⟩

/-- A table whose header row's cells are all blank. -/
def tblEmptyHeader : Node := .table [.left, .right] 2
  [.tableRow true [.tableCell [], .tableCell [.text " "]],
   .tableRow false [.tableCell [.text "1"], .tableCell [.text "2"]]]

/-- A table with a non-blank header row. -/
def tblWithHeader : Node := .table [.left, .right] 2
  [.tableRow true [.tableCell [.text "A"], .tableCell [.text "B"]],
   .tableRow false [.tableCell [.text "1"], .tableCell [.text "2"]]]

/-! ## Theorems -/

/-- The per-entry conditional of `deep_merge_toml`'s loop coincides with
`deepMergeToml` itself: the non-table branch of `deepMergeToml` is
exactly "replace unless default". -/
theorem mergeStep_eq_deepMergeToml (b o : Toml) :
    (if b.isTable && o.isTable then deepMergeToml b o
     else if isDefaultValue o then b else o) = deepMergeToml b o := by
  cases b <;> cases o <;> simp [deepMergeToml, Toml.isTable]

theorem lookupEntry_replaceEntry_ne (bt : List (String × Toml)) (key k : String)
    (nv : Toml) (h : key ≠ k) :
    lookupEntry (replaceEntry bt key nv) k = lookupEntry bt k := by
  induction bt with
  | nil => rfl
  | cons e rest ih =>
      obtain ⟨k₀, v₀⟩ := e
      by_cases hk : k₀ = key
      · subst hk
        simp only [replaceEntry, if_true]
        simp [lookupEntry, h]
      · simp only [replaceEntry, if_neg hk, lookupEntry]
        by_cases hk2 : k₀ = k
        · simp [hk2]
        · simp [hk2, ih]

theorem lookupEntry_replaceEntry_eq (bt : List (String × Toml)) (key : String)
    (nv bv : Toml) (h : lookupEntry bt key = some bv) :
    lookupEntry (replaceEntry bt key nv) key = some nv := by
  induction bt with
  | nil => simp [lookupEntry] at h
  | cons e rest ih =>
      obtain ⟨k₀, v₀⟩ := e
      by_cases hk : k₀ = key
      · subst hk
        simp [replaceEntry, lookupEntry]
      · simp only [lookupEntry, if_neg hk] at h
        simp only [replaceEntry, if_neg hk, lookupEntry, if_neg hk]
        exact ih h

theorem lookupEntry_append_single_ne (bt : List (String × Toml)) (k₁ k : String)
    (ov : Toml) (h : k₁ ≠ k) :
    lookupEntry (bt ++ [(k₁, ov)]) k = lookupEntry bt k := by
  induction bt with
  | nil => simp [lookupEntry, h]
  | cons e rest ih =>
      obtain ⟨k₀, v₀⟩ := e
      by_cases hk : k₀ = k
      · simp [lookupEntry, hk]
      · simp [lookupEntry, hk, ih]

theorem lookupEntry_deepMergeEntries_notmem (ct bt : List (String × Toml))
    (k : String) (h : k ∉ ct.map Prod.fst) :
    lookupEntry (deepMergeEntries bt ct) k = lookupEntry bt k := by
  induction ct generalizing bt with
  | nil => simp [deepMergeEntries]
  | cons e rest ih =>
      obtain ⟨k₁, ov⟩ := e
      simp only [List.map_cons, List.mem_cons, not_or] at h
      have hne : k₁ ≠ k := fun hk => h.1 hk.symm
      simp only [deepMergeEntries]
      rw [ih _ h.2]
      cases hlb : lookupEntry bt k₁ with
      | none =>
          simp only []
          split
          · rfl
          · exact lookupEntry_append_single_ne bt k₁ k ov hne
      | some bv =>
          simp only []
          split
          · exact lookupEntry_replaceEntry_ne bt k₁ k _ hne
          · split
            · rfl
            · exact lookupEntry_replaceEntry_ne bt k₁ k _ hne

theorem lookupEntry_deepMergeEntries (ct bt : List (String × Toml))
    (k : String) (b' c' : Toml)
    (hnodup : keysNodup (ct.map Prod.fst) = true)
    (hb : lookupEntry bt k = some b') (hc : lookupEntry ct k = some c') :
    lookupEntry (deepMergeEntries bt ct) k = some (deepMergeToml b' c') := by
  induction ct generalizing bt with
  | nil => simp [lookupEntry] at hc
  | cons e rest ih =>
      obtain ⟨k₁, ov⟩ := e
      simp only [List.map_cons, keysNodup, Bool.and_eq_true] at hnodup
      by_cases hk : k₁ = k
      · subst hk
        simp [lookupEntry] at hc
        subst hc
        simp only [deepMergeEntries]
        rw [lookupEntry_deepMergeEntries_notmem rest _ k₁ (by simpa using hnodup.1)]
        rw [hb]
        simp only []
        split
        next hcond =>
          exact lookupEntry_replaceEntry_eq bt k₁ _ b' hb
        next hcond =>
          split
          next hdef =>
              rw [hb, ← mergeStep_eq_deepMergeToml, if_neg hcond, if_pos hdef]
          next hdef =>
              rw [lookupEntry_replaceEntry_eq bt k₁ _ b' hb,
                ← mergeStep_eq_deepMergeToml, if_neg hcond, if_neg hdef]
      · simp only [lookupEntry, if_neg hk] at hc
        simp only [deepMergeEntries]
        cases hlb : lookupEntry bt k₁ with
        | none =>
            simp only []
            split
            · exact ih bt hnodup.2 hb hc
            · exact ih _ hnodup.2
                (by rw [lookupEntry_append_single_ne bt k₁ k ov hk]; exact hb) hc
        | some bv =>
            simp only []
            split
            · exact ih _ hnodup.2
                (by rw [lookupEntry_replaceEntry_ne bt k₁ k _ hk]; exact hb) hc
            · split
              · exact ih bt hnodup.2 hb hc
              · exact ih _ hnodup.2
                  (by rw [lookupEntry_replaceEntry_ne bt k₁ k _ hk]; exact hb) hc

theorem distinctKeysEntries_lookup (ct : List (String × Toml)) (k : String)
    (c' : Toml) (hwf : distinctKeysEntries ct = true)
    (hc : lookupEntry ct k = some c') : distinctKeysToml c' = true := by
  induction ct with
  | nil => simp [lookupEntry] at hc
  | cons e rest ih =>
      obtain ⟨k₁, v₁⟩ := e
      simp only [distinctKeysEntries, Bool.and_eq_true] at hwf
      by_cases hk : k₁ = k
      · simp only [lookupEntry, if_pos hk, Option.some.injEq] at hc
        subst hc
        exact hwf.1
      · simp only [lookupEntry, if_neg hk] at hc
        exact ih hwf.2 hc

/-- C1 (general form): `merge_tokens`/`deep_merge_toml` is directional
and sentinel-aware.  For every leaf field (a path leading to a non-table
value on both sides), the merged tree holds the base's value when the
child's value is the unset sentinel, and the child's value otherwise.
Nested sections are merged recursively, which is exactly what lets the
statement quantify over paths of arbitrary depth. -/
theorem merge_directional (p : List String) (b c vb vc : Toml)
    (hwf : distinctKeysToml c = true)
    (hb : b.getPath p = some vb) (hc : c.getPath p = some vc)
    (hvb : vb.isTable = false) (hvc : vc.isTable = false) :
    (mergeTokens b c).getPath p
      = some (if isDefaultValue vc then vb else vc) := by
  induction p generalizing b c with
  | nil =>
      simp only [Toml.getPath, Option.some.injEq] at hb hc
      subst hb; subst hc
      show (deepMergeToml b c).getPath [] = _
      cases b <;> cases c <;>
        simp_all [deepMergeToml, Toml.isTable, Toml.getPath, isDefaultValue]
  | cons k ks ih =>
      cases b with
      | str s => simp [Toml.getPath] at hb
      | int n => simp [Toml.getPath] at hb
      | float f => simp [Toml.getPath] at hb
      | boolean x => simp [Toml.getPath] at hb
      | arr a => simp [Toml.getPath] at hb
      | datetime d => simp [Toml.getPath] at hb
      | table bt =>
        cases c with
        | str s => simp [Toml.getPath] at hc
        | int n => simp [Toml.getPath] at hc
        | float f => simp [Toml.getPath] at hc
        | boolean x => simp [Toml.getPath] at hc
        | arr a => simp [Toml.getPath] at hc
        | datetime d => simp [Toml.getPath] at hc
        | table ct =>
          simp only [Toml.getPath] at hb hc
          obtain ⟨b', hb', hbp⟩ : ∃ b', lookupEntry bt k = some b' ∧ b'.getPath ks = some vb := by
            cases hlb : lookupEntry bt k with
            | none => rw [hlb] at hb; simp at hb
            | some v => rw [hlb] at hb; exact ⟨v, rfl, hb⟩
          obtain ⟨c', hc', hcp⟩ : ∃ c', lookupEntry ct k = some c' ∧ c'.getPath ks = some vc := by
            cases hlc : lookupEntry ct k with
            | none => rw [hlc] at hc; simp at hc
            | some v => rw [hlc] at hc; exact ⟨v, rfl, hc⟩
          simp only [distinctKeysToml, Bool.and_eq_true] at hwf
          have hwfc' : distinctKeysToml c' = true :=
            distinctKeysEntries_lookup ct k c' hwf.2 hc'
          have hmerged : lookupEntry (deepMergeEntries bt ct) k
              = some (deepMergeToml b' c') :=
            lookupEntry_deepMergeEntries ct bt k b' c' hwf.1 hb' hc'
          show (deepMergeToml (.table bt) (.table ct)).getPath (k :: ks) = _
          simp only [deepMergeToml, Toml.getPath, hmerged]
          exact ih b' c' hwfc' hbp hcp

theorem addChainNames_eq (rest : List Toml) (seen : List String) :
    addChainNames rest seen = (rest.map metaName).reverse ++ seen := by
  induction rest generalizing seen with
  | nil => simp [addChainNames]
  | cons p r ih =>
      rw [show addChainNames (p :: r) seen
        = addChainNames r (metaName p :: seen) from rfl, ih]
      simp

theorem resolveLoop_advance (env : String → Option Toml) (rest : List Toml) :
    ∀ (chain : List Toml) (seen : List String) (cur : Toml),
    chain.getLast? = some cur →
    linksFrom env cur rest →
    freshNames rest seen →
    chain.length + rest.length ≤ MAX_INHERITANCE_DEPTH →
    resolveLoop env chain seen
      = resolveLoop env (chain ++ rest) (addChainNames rest seen) := by
  induction rest with
  | nil => intro chain seen cur _ _ _ _; simp [addChainNames]
  | cons p rest ih =>
      intro chain seen cur hcur hlinks hfresh hlen
      obtain ⟨hext, hpne, henv, hlinks'⟩ := hlinks
      obtain ⟨hnotin, hfresh'⟩ := hfresh
      rw [resolveLoop.eq_def, hcur]
      simp only []
      rw [hext]
      rw [if_neg hpne, if_neg (by simpa using hnotin)]
      rw [dif_neg (by simp at hlen; omega)]
      rw [henv]
      simp only []
      rw [ih (chain ++ [p]) (metaName p :: seen) p (by simp)
        hlinks' hfresh' (by simp at hlen ⊢; omega)]
      simp [addChainNames]

theorem resolveLoop_stop (env : String → Option Toml) (chain : List Toml)
    (seen : List String) (cur : Toml) (hcur : chain.getLast? = some cur)
    (hext : metaExtends cur = "") :
    resolveLoop env chain seen = .ok chain := by
  rw [resolveLoop.eq_def, hcur]
  simp only []
  rw [if_pos hext]

theorem resolveLoop_cycle (env : String → Option Toml) (chain : List Toml)
    (seen : List String) (cur : Toml) (hcur : chain.getLast? = some cur)
    (hne : metaExtends cur ≠ "") (hmem : metaExtends cur ∈ seen) :
    resolveLoop env chain seen = .error (.themeCycle
      (String.intercalate " -> " (chain.map metaName) ++ " -> " ++ metaExtends cur)) := by
  rw [resolveLoop.eq_def, hcur]
  simp only []
  rw [if_neg hne, if_pos hmem]

theorem resolveLoop_depth (env : String → Option Toml) (chain : List Toml)
    (seen : List String) (cur : Toml) (hcur : chain.getLast? = some cur)
    (hne : metaExtends cur ≠ "") (hnot : metaExtends cur ∉ seen)
    (hlen : MAX_INHERITANCE_DEPTH ≤ chain.length) :
    resolveLoop env chain seen = .error (.themeInheritanceDepth
      (String.intercalate " -> " (chain.map metaName))) := by
  rw [resolveLoop.eq_def, hcur]
  simp only []
  rw [if_neg hne, if_neg hnot, dif_pos hlen]

/-- Successful resolution of a well-linked, cycle-free chain of at most
`MAX_INHERITANCE_DEPTH` themes. -/
theorem resolveInheritance_ok (env : String → Option Toml) (t : Toml)
    (ps : List Toml)
    (hlinks : linksFrom env t ps)
    (hfresh : freshNames ps (if metaName t = "" then [] else [metaName t]))
    (hlast : metaExtends ((t :: ps).getLast (by simp)) = "")
    (hlen : (t :: ps).length ≤ MAX_INHERITANCE_DEPTH) :
    ∃ merged, resolveInheritance env t = .ok merged := by
  by_cases hext : metaExtends t = ""
  · exact ⟨t, by simp [resolveInheritance, hext]⟩
  · have hloop : resolveLoop env [t]
        (if metaName t = "" then [] else [metaName t]) = .ok (t :: ps) := by
      rw [resolveLoop_advance env ps [t] _ t (by simp) hlinks hfresh
        (by simp [MAX_INHERITANCE_DEPTH] at hlen ⊢; omega)]
      simp only [List.singleton_append]
      exact resolveLoop_stop env _ _ ((t :: ps).getLast (by simp))
        (List.getLast?_eq_getLast _ _) hlast
    cases hrev : (t :: ps).reverse with
    | nil => simp at hrev
    | cons m ds =>
        refine ⟨ds.foldl mergeTokens m, ?_⟩
        unfold resolveInheritance
        rw [if_neg hext]
        dsimp only []
        rw [hloop]
        simp only []
        rw [hrev]

/-- A repeated name encountered within the depth cap produces a
`ThemeCycle` error carrying the full chain (joined with " -> ") plus the
repeated name. -/
theorem resolveInheritance_cycle (env : String → Option Toml) (t : Toml)
    (ps : List Toml)
    (hroot : metaName t ≠ "")
    (hlinks : linksFrom env t ps)
    (hfresh : freshNames ps [metaName t])
    (hlen : (t :: ps).length ≤ MAX_INHERITANCE_DEPTH)
    (hne : metaExtends ((t :: ps).getLast (by simp)) ≠ "")
    (hmem : metaExtends ((t :: ps).getLast (by simp)) ∈ (t :: ps).map metaName) :
    resolveInheritance env t = .error (.themeCycle
      (String.intercalate " -> " ((t :: ps).map metaName) ++ " -> "
        ++ metaExtends ((t :: ps).getLast (by simp)))) := by
  have hext : metaExtends t ≠ "" := by
    cases ps with
    | nil => simpa using hne
    | cons p r =>
        obtain ⟨h1, h2, -, -⟩ := hlinks
        rw [h1]; exact h2
  have hmem' : metaExtends ((t :: ps).getLast (by simp))
      ∈ addChainNames ps [metaName t] := by
    rw [addChainNames_eq]
    rcases List.mem_cons.mp hmem with hx | hx
    · refine List.mem_append.mpr (Or.inr ?_)
      rw [hx]
      exact List.mem_singleton_self _
    · exact List.mem_append.mpr (Or.inl (List.mem_reverse.mpr hx))
  have hloop : resolveLoop env [t] [metaName t] = .error (.themeCycle
      (String.intercalate " -> " ((t :: ps).map metaName) ++ " -> "
        ++ metaExtends ((t :: ps).getLast (by simp)))) := by
    rw [resolveLoop_advance env ps [t] [metaName t] t (by simp) hlinks hfresh
      (by simp [MAX_INHERITANCE_DEPTH] at hlen ⊢; omega)]
    have := resolveLoop_cycle env (t :: ps) (addChainNames ps [metaName t])
      ((t :: ps).getLast (by simp)) (List.getLast?_eq_getLast _ _) hne hmem'
    simpa only [List.singleton_append] using this
  unfold resolveInheritance
  rw [if_neg hext]
  dsimp only []
  rw [if_neg hroot, hloop]

/-- A chain that fills the depth cap and still wants a fresh parent
produces a `ThemeInheritanceDepth` error carrying the loaded chain. -/
theorem resolveInheritance_depth (env : String → Option Toml) (t : Toml)
    (ps : List Toml)
    (hroot : metaName t ≠ "")
    (hlinks : linksFrom env t ps)
    (hfresh : freshNames ps [metaName t])
    (hlen : (t :: ps).length = MAX_INHERITANCE_DEPTH)
    (hne : metaExtends ((t :: ps).getLast (by simp)) ≠ "")
    (hnot : metaExtends ((t :: ps).getLast (by simp)) ∉ (t :: ps).map metaName) :
    resolveInheritance env t = .error (.themeInheritanceDepth
      (String.intercalate " -> " ((t :: ps).map metaName))) := by
  have hext : metaExtends t ≠ "" := by
    cases ps with
    | nil => simpa using hne
    | cons p r =>
        obtain ⟨h1, h2, -, -⟩ := hlinks
        rw [h1]; exact h2
  have hnot' : metaExtends ((t :: ps).getLast (by simp))
      ∉ addChainNames ps [metaName t] := by
    rw [addChainNames_eq]
    intro hc
    apply hnot
    rcases List.mem_append.mp hc with hx | hx
    · exact List.mem_cons.mpr (Or.inr (List.mem_reverse.mp hx))
    · exact List.mem_cons.mpr (Or.inl (List.eq_of_mem_singleton hx))
  have hloop : resolveLoop env [t] [metaName t] = .error (.themeInheritanceDepth
      (String.intercalate " -> " ((t :: ps).map metaName))) := by
    rw [resolveLoop_advance env ps [t] [metaName t] t (by simp) hlinks hfresh
      (by simp [MAX_INHERITANCE_DEPTH] at hlen ⊢; omega)]
    have := resolveLoop_depth env (t :: ps) (addChainNames ps [metaName t])
      ((t :: ps).getLast (by simp)) (List.getLast?_eq_getLast _ _) hne hnot'
      (by simpa using hlen.ge)
    simpa only [List.singleton_append] using this
  unfold resolveInheritance
  rw [if_neg hext]
  dsimp only []
  rw [if_neg hroot, hloop]

theorem resolvePass_keys (snapshot : List (String × String)) :
    (resolvePass snapshot).map Prod.fst = snapshot.map Prod.fst := by
  unfold resolvePass
  rw [List.map_map]
  apply List.map_congr_left
  intro kv _
  simp only [Function.comp_apply]
  split
  · split
    · split <;> rfl
    · rfl
  · rfl

theorem passIter_keys (n : Nat) (c : List (String × String)) :
    (passIter n c).map Prod.fst = c.map Prod.fst := by
  induction n generalizing c with
  | zero => rfl
  | succ n ih => rw [passIter, ih, resolvePass_keys]

theorem resolveColorTableLoop_isIter (fuel : Nat) (c : List (String × String)) :
    ∃ n ≤ fuel, resolveColorTableLoop fuel c = passIter n c := by
  induction fuel generalizing c with
  | zero => exact ⟨0, le_refl 0, rfl⟩
  | succ fuel ih =>
      rw [resolveColorTableLoop]
      split
      · exact ⟨0, Nat.zero_le _, rfl⟩
      · obtain ⟨n, hn, heq⟩ := ih (resolvePass c)
        exact ⟨n + 1, Nat.succ_le_succ hn, heq⟩

/-- `List.foldl (+size)` shifted by the accumulator. -/
theorem byteLen_foldl_shift (cs : List Char) :
    ∀ a : Nat, cs.foldl (fun n c => n + c.utf8Size) a = a + byteLen cs := by
  induction cs with
  | nil => intro a; simp [byteLen]
  | cons c rest ih =>
      intro a
      simp only [byteLen, List.foldl_cons]
      rw [ih (a + c.utf8Size), ih (0 + c.utf8Size)]
      omega

/-- On an all-ASCII sequence the byte length is the char count. -/
theorem byteLen_ascii (cs : List Char) (h : ∀ c ∈ cs, c.utf8Size = 1) :
    byteLen cs = cs.length := by
  induction cs with
  | nil => rfl
  | cons c rest ih =>
      have hc : c.utf8Size = 1 := h c (by simp)
      have ih2 := ih (fun x hx => h x (by simp [hx]))
      simp only [byteLen, List.foldl_cons, List.length_cons]
      rw [byteLen_foldl_shift rest (0 + c.utf8Size)]
      simp only [byteLen] at ih2 ⊢
      omega

/-- On an all-ASCII sequence every byte offset within range is a char
boundary: `takeBytes` splits like `take`/`drop`. -/
theorem takeBytes_ascii (n : Nat) (cs : List Char)
    (h : ∀ c ∈ cs, c.utf8Size = 1) (hn : n ≤ cs.length) :
    takeBytes n cs = some (cs.take n, cs.drop n) := by
  induction n generalizing cs with
  | zero => simp [takeBytes]
  | succ m ih =>
      cases cs with
      | nil => simp at hn
      | cons c rest =>
          have hc : c.utf8Size = 1 := h c (by simp)
          have hrest : ∀ x ∈ rest, x.utf8Size = 1 :=
            fun x hx => h x (by simp [hx])
          have hm : m ≤ rest.length := by simpa using hn
          simp only [takeBytes, hc]
          rw [if_pos (by omega)]
          have hn1 : m + 1 - 1 = m := rfl
          rw [hn1, ih rest hrest hm]
          simp

/-- An all-ASCII color string can never hit the byte-slicing panic:
every slice offset lands on a character boundary, so the result is a
clean `.ok` (a parse failure becomes `.ok none`). -/
theorem relativeLuminance_no_panic (gamma : Rat → Rat) (hex : String)
    (h : ∀ c ∈ hex.data, c.utf8Size = 1) :
    relativeLuminance gamma hex ≠ Except.error () := by
  unfold relativeLuminance
  have hsub : ∀ c ∈ hex.data.dropWhile (· = '#'), c.utf8Size = 1 :=
    fun c hc => h c (List.Sublist.subset (List.dropWhile_sublist _) hc)
  by_cases hb : byteLen (hex.data.dropWhile (· = '#')) = 6
  · rw [if_neg (by simp [hb])]
    have hlen : (hex.data.dropWhile (· = '#')).length = 6 := by
      rw [← byteLen_ascii _ hsub]; exact hb
    rw [takeBytes_ascii 2 _ hsub (by omega)]
    dsimp only
    cases fromStrRadix16U8 ((hex.data.dropWhile (· = '#')).take 2) with
    | none => exact fun hco => Except.noConfusion hco
    | some r =>
        rw [takeBytes_ascii 2 ((hex.data.dropWhile (· = '#')).drop 2)
          (fun c hc => hsub c (List.drop_subset _ _ hc)) (by simp [hlen])]
        dsimp only
        cases fromStrRadix16U8 (((hex.data.dropWhile (· = '#')).drop 2).take 2) with
        | none => exact fun hco => Except.noConfusion hco
        | some g =>
            cases fromStrRadix16U8 (((hex.data.dropWhile (· = '#')).drop 2).drop 2) with
            | none => exact fun hco => Except.noConfusion hco
            | some b => exact fun hco => Except.noConfusion hco
  · rw [if_pos (by simp [hb])]
    exact fun hco => Except.noConfusion hco

mutual

theorem emitNode_wp (hc : HtmlConv) : ∀ (n : Node) (o : String) (i : Nat)
    (f : List (String × String)) (ta : List TableAlignment) (tci : Nat)
    (ith itl : Bool) (w : List SilkprintWarning) (ms : List String) (mc : Nat)
    (p : List SilkprintWarning),
    emitNode hc n ⟨o, i, f, ta, tci, ith, itl, p ++ w, ms, mc⟩
      = { emitNode hc n ⟨o, i, f, ta, tci, ith, itl, w, ms, mc⟩
          with warnings := p ++ (emitNode hc n ⟨o, i, f, ta, tci, ith, itl, w, ms, mc⟩).warnings }
  | .frontMatter, o, i, f, ta, tci, ith, itl, w, ms, mc, p => rfl
  | .footnoteDefinition _ _, o, i, f, ta, tci, ith, itl, w, ms, mc, p => rfl
  | .thematicBreak, o, i, f, ta, tci, ith, itl, w, ms, mc, p => rfl
  | .text t, o, i, f, ta, tci, ith, itl, w, ms, mc, p => rfl
  | .softBreak, o, i, f, ta, tci, ith, itl, w, ms, mc, p => rfl
  | .lineBreak, o, i, f, ta, tci, ith, itl, w, ms, mc, p => rfl
  | .shortCode emo, o, i, f, ta, tci, ith, itl, w, ms, mc, p => rfl
  | .raw s, o, i, f, ta, tci, ith, itl, w, ms, mc, p => rfl
  | .code lit nb, o, i, f, ta, tci, ith, itl, w, ms, mc, p => by
      simp only [emitNode]
      split <;> rfl
  | .math lit d2, o, i, f, ta, tci, ith, itl, w, ms, mc, p => by
      simp only [emitNode]
      split <;> rfl
  | .codeBlock info lit, o, i, f, ta, tci, ith, itl, w, ms, mc, p => by
      simp only [emitNode]
      split
      · rfl
      · split <;> rfl
  | .image u cs, o, i, f, ta, tci, ith, itl, w, ms, mc, p => by
      simp only [emitNode]
      split
      · rfl
      · split <;> rfl
  | .htmlBlock lit, o, i, f, ta, tci, ith, itl, w, ms, mc, p => by
      simp only [emitNode, List.append_assoc]
  | .htmlInline s, o, i, f, ta, tci, ith, itl, w, ms, mc, p => by
      simp only [emitNode, emitHtmlInlineNode, pushHtmlInline,
        EmitContext.push, List.append_assoc]
      split <;> rfl
  | .paragraph cs, o, i, f, ta, tci, ith, itl, w, ms, mc, p => by
      cases itl
      · simp only [emitNode, EmitContext.newline, Bool.not_false, if_true]
        rw [emitChildren_wp]
        cases hI2 : (emitChildren hc cs ⟨o ++ "\n", i, f, ta, tci, ith, false, w, ms, mc⟩).inTightList <;>
          simp only [hI2, Bool.not_true, Bool.not_false, Bool.false_eq_true,
            if_true, if_false, EmitContext.newline] <;> rfl
      · simp only [emitNode, Bool.not_true, Bool.false_eq_true, if_false]
        rw [emitChildren_wp]
        cases hI2 : (emitChildren hc cs ⟨o, i, f, ta, tci, ith, true, w, ms, mc⟩).inTightList <;>
          simp only [hI2, Bool.not_true, Bool.not_false, Bool.false_eq_true,
            if_true, if_false, EmitContext.newline] <;> rfl
  | .heading lvl cs, o, i, f, ta, tci, ith, itl, w, ms, mc, p => by
      simp only [emitNode, EmitContext.newline, EmitContext.push]
      rw [emitChildren_wp]
  | .strong cs, o, i, f, ta, tci, ith, itl, w, ms, mc, p => by
      simp only [emitNode, EmitContext.push]
      rw [emitChildren_wp]
  | .emph cs, o, i, f, ta, tci, ith, itl, w, ms, mc, p => by
      simp only [emitNode, EmitContext.push]
      rw [emitChildren_wp]
  | .strikethrough cs, o, i, f, ta, tci, ith, itl, w, ms, mc, p => by
      simp only [emitNode, EmitContext.push]
      rw [emitChildren_wp]
  | .spoileredText cs, o, i, f, ta, tci, ith, itl, w, ms, mc, p => by
      simp only [emitNode, EmitContext.push]
      rw [emitChildren_wp]
  | .underline cs, o, i, f, ta, tci, ith, itl, w, ms, mc, p => by
      simp only [emitNode, EmitContext.push]
      rw [emitChildren_wp]
  | .superscript cs, o, i, f, ta, tci, ith, itl, w, ms, mc, p => by
      simp only [emitNode, EmitContext.push]
      rw [emitChildren_wp]
  | .subscript cs, o, i, f, ta, tci, ith, itl, w, ms, mc, p => by
      simp only [emitNode, EmitContext.push]
      rw [emitChildren_wp]
  | .subtext cs, o, i, f, ta, tci, ith, itl, w, ms, mc, p => by
      simp only [emitNode, EmitContext.push]
      rw [emitChildren_wp]
  | .highlight cs, o, i, f, ta, tci, ith, itl, w, ms, mc, p => by
      simp only [emitNode, EmitContext.push]
      rw [emitChildren_wp]
  | .link u cs, o, i, f, ta, tci, ith, itl, w, ms, mc, p => by
      simp only [emitNode, EmitContext.push]
      rw [emitChildren_wp]
  | .wikiLink u cs, o, i, f, ta, tci, ith, itl, w, ms, mc, p => by
      simp only [emitNode, EmitContext.push]
      rw [emitChildren_wp]
  | .blockQuote cs, o, i, f, ta, tci, ith, itl, w, ms, mc, p => by
      simp only [emitNode, EmitContext.newline, EmitContext.push]
      rw [emitChildren_wp]
  | .multilineBlockQuote cs, o, i, f, ta, tci, ith, itl, w, ms, mc, p => by
      simp only [emitNode, EmitContext.newline, EmitContext.push]
      rw [emitChildren_wp]
  | .list o1 t1 s1 cs, o, i, f, ta, tci, ith, itl, w, ms, mc, p => by
      simp only [emitNode, EmitContext.newline, EmitContext.push]
      split <;> rw [emitListChildren_wp]
  | .item cs, o, i, f, ta, tci, ith, itl, w, ms, mc, p => by
      simp only [emitNode]
      rw [emitChildren_wp]
  | .taskItem ck cs, o, i, f, ta, tci, ith, itl, w, ms, mc, p => by
      simp only [emitNode]
      rw [emitChildren_wp]
  | .document cs, o, i, f, ta, tci, ith, itl, w, ms, mc, p => by
      simp only [emitNode]
      rw [emitChildren_wp]
  | .escaped cs, o, i, f, ta, tci, ith, itl, w, ms, mc, p => by
      simp only [emitNode]
      rw [emitChildren_wp]
  | .escapedTag cs, o, i, f, ta, tci, ith, itl, w, ms, mc, p => by
      simp only [emitNode]
      rw [emitChildren_wp]
  | .table al nc rows, o, i, f, ta, tci, ith, itl, w, ms, mc, p => by
      simp only [emitNode, EmitContext.newline, EmitContext.push]
      split <;> rw [emitTableChildren_wp]
  | .tableRow hdr cs, o, i, f, ta, tci, ith, itl, w, ms, mc, p => by
      simp only [emitNode]
      rw [emitNodes_wp]
  | .tableCell cs, o, i, f, ta, tci, ith, itl, w, ms, mc, p => by
      simp only [emitNode, EmitContext.push]
      rw [emitChildren_wp]
  | .footnoteReference nm, o, i, f, ta, tci, ith, itl, w, ms, mc, p => by
      simp only [emitNode]
      cases List.lookup nm f
      · simp only [EmitContext.push, List.append_assoc]
      · rfl
  | .alert ti ic cs, o, i, f, ta, tci, ith, itl, w, ms, mc, p => by
      simp only [emitNode, EmitContext.newline, EmitContext.push]
      rw [emitChildren_wp]
  | .descriptionList cs, o, i, f, ta, tci, ith, itl, w, ms, mc, p => by
      simp only [emitNode, EmitContext.newline]
      rw [emitNodes_wp]
  | .descriptionItem cs, o, i, f, ta, tci, ith, itl, w, ms, mc, p => by
      simp only [emitNode]
      rw [emitNodes_wp]
  | .descriptionTerm cs, o, i, f, ta, tci, ith, itl, w, ms, mc, p => by
      simp only [emitNode, EmitContext.push]
      rw [emitChildren_wp]
  | .descriptionDetails cs, o, i, f, ta, tci, ith, itl, w, ms, mc, p => by
      simp only [emitNode, EmitContext.push, EmitContext.newline]
      rw [emitChildren_wp]
termination_by structural n => n

theorem emitNodes_wp (hc : HtmlConv) : ∀ (l : List Node) (o : String) (i : Nat)
    (f : List (String × String)) (ta : List TableAlignment) (tci : Nat)
    (ith itl : Bool) (w : List SilkprintWarning) (ms : List String) (mc : Nat)
    (p : List SilkprintWarning),
    emitNodes hc l ⟨o, i, f, ta, tci, ith, itl, p ++ w, ms, mc⟩
      = { emitNodes hc l ⟨o, i, f, ta, tci, ith, itl, w, ms, mc⟩
          with warnings := p ++ (emitNodes hc l ⟨o, i, f, ta, tci, ith, itl, w, ms, mc⟩).warnings }
  | [], o, i, f, ta, tci, ith, itl, w, ms, mc, p => rfl
  | n :: rest, o, i, f, ta, tci, ith, itl, w, ms, mc, p => by
      simp only [emitNodes]
      rw [emitNode_wp]
      obtain ⟨o2, i2, f2, ta2, tci2, ith2, itl2, w2, ms2, mc2⟩ :=
        emitNode hc n ⟨o, i, f, ta, tci, ith, itl, w, ms, mc⟩
      rw [emitNodes_wp]
termination_by structural l => l

theorem emitChildren_wp (hc : HtmlConv) : ∀ (l : List Node) (o : String) (i : Nat)
    (f : List (String × String)) (ta : List TableAlignment) (tci : Nat)
    (ith itl : Bool) (w : List SilkprintWarning) (ms : List String) (mc : Nat)
    (p : List SilkprintWarning),
    emitChildren hc l ⟨o, i, f, ta, tci, ith, itl, p ++ w, ms, mc⟩
      = { emitChildren hc l ⟨o, i, f, ta, tci, ith, itl, w, ms, mc⟩
          with warnings := p ++ (emitChildren hc l ⟨o, i, f, ta, tci, ith, itl, w, ms, mc⟩).warnings }
  | [], o, i, f, ta, tci, ith, itl, w, ms, mc, p => rfl
  | n :: rest, o, i, f, ta, tci, ith, itl, w, ms, mc, p => by
      cases n <;>
        first
        | (simp only [emitChildren]
           split
           · rw [htmlAccum_wp]
           · simp only [emitHtmlInlineNode, pushHtmlInline, EmitContext.push,
               List.append_assoc]
             split
             · rw [emitChildren_wp]
             · rw [emitChildren_wp])
        | (simp only [emitChildren]
           rw [emitNode_wp]
           rw [emitChildren_wp]
           try rfl
           done)
termination_by structural l => l

theorem htmlAccum_wp (hc : HtmlConv) : ∀ (l : List Node) (buf : String)
    (d : Nat) (o : String) (i : Nat) (f : List (String × String))
    (ta : List TableAlignment) (tci : Nat) (ith itl : Bool)
    (w : List SilkprintWarning) (ms : List String) (mc : Nat)
    (p : List SilkprintWarning),
    htmlAccum hc l buf d ⟨o, i, f, ta, tci, ith, itl, p ++ w, ms, mc⟩
      = { htmlAccum hc l buf d ⟨o, i, f, ta, tci, ith, itl, w, ms, mc⟩
          with warnings := p ++ (htmlAccum hc l buf d ⟨o, i, f, ta, tci, ith, itl, w, ms, mc⟩).warnings }
  | [], buf, d, o, i, f, ta, tci, ith, itl, w, ms, mc, p => by
      simp only [htmlAccum, pushHtmlInline, List.append_assoc]
  | n :: rest, buf, d, o, i, f, ta, tci, ith, itl, w, ms, mc, p => by
      cases n <;>
        first
        | (rename_i s
           simp only [htmlAccum, pushHtmlInline, List.append_assoc]
           by_cases hd : (if isOpeningHtmlTag s then d + 1
               else if isClosingHtmlTag s then d - 1 else d) = 0
           · rw [if_pos hd, if_pos hd, emitChildren_wp]
           · rw [if_neg hd, if_neg hd, htmlAccum_wp])
        | (simp only [htmlAccum]
           rw [htmlAccum_wp]
           try rfl
           done)
        | (simp only [htmlAccum, pushHtmlInline, List.append_assoc]
           rw [emitNode_wp]
           rw [emitChildren_wp]
           try rfl
           done)
termination_by structural l => l

theorem emitListChildren_wp (hc : HtmlConv) (o1 : Bool) : ∀ (l : List Node)
    (o : String) (i : Nat) (f : List (String × String))
    (ta : List TableAlignment) (tci : Nat) (ith itl : Bool)
    (w : List SilkprintWarning) (ms : List String) (mc : Nat)
    (p : List SilkprintWarning),
    emitListChildren hc o1 l ⟨o, i, f, ta, tci, ith, itl, p ++ w, ms, mc⟩
      = { emitListChildren hc o1 l ⟨o, i, f, ta, tci, ith, itl, w, ms, mc⟩
          with warnings := p ++ (emitListChildren hc o1 l ⟨o, i, f, ta, tci, ith, itl, w, ms, mc⟩).warnings }
  | [], o, i, f, ta, tci, ith, itl, w, ms, mc, p => rfl
  | n :: rest, o, i, f, ta, tci, ith, itl, w, ms, mc, p => by
      cases n <;>
        first
        | (simp only [emitListChildren, EmitContext.pushIndent,
             EmitContext.push, EmitContext.newline]
           rw [emitListItemChildren_wp]
           rw [emitListChildren_wp]
           try rfl
           done)
        | (simp only [emitListChildren]
           rw [emitNode_wp]
           rw [emitListChildren_wp]
           try rfl
           done)
termination_by structural l => l

theorem emitListItemChildren_wp (hc : HtmlConv) : ∀ (l : List Node)
    (o : String) (i : Nat) (f : List (String × String))
    (ta : List TableAlignment) (tci : Nat) (ith itl : Bool)
    (w : List SilkprintWarning) (ms : List String) (mc : Nat)
    (p : List SilkprintWarning),
    emitListItemChildren hc l ⟨o, i, f, ta, tci, ith, itl, p ++ w, ms, mc⟩
      = { emitListItemChildren hc l ⟨o, i, f, ta, tci, ith, itl, w, ms, mc⟩
          with warnings := p ++ (emitListItemChildren hc l ⟨o, i, f, ta, tci, ith, itl, w, ms, mc⟩).warnings }
  | [], o, i, f, ta, tci, ith, itl, w, ms, mc, p => rfl
  | n :: rest, o, i, f, ta, tci, ith, itl, w, ms, mc, p => by
      cases n
      case paragraph pcs =>
        cases itl
        · simp only [emitListItemChildren, EmitContext.newline,
            Bool.not_false, if_true, Bool.false_eq_true, if_false]
          rw [emitChildren_wp]
          obtain ⟨o2, i2, f2, ta2, tci2, ith2, itl2, w2, ms2, mc2⟩ :=
            emitChildren hc pcs ⟨o ++ "\n", i, f, ta, tci, ith, false, w, ms, mc⟩
          cases itl2 <;>
            simp only [Bool.not_true, Bool.not_false, Bool.false_eq_true,
              if_true, if_false, EmitContext.newline] <;>
            (rw [emitListItemChildren_wp]; try rfl)
        · simp only [emitListItemChildren, if_true]
          rw [emitChildren_wp]
          rw [emitListItemChildren_wp]
          try rfl
          done
      all_goals
        (simp only [emitListItemChildren]
         rw [emitNode_wp]
         rw [emitListItemChildren_wp]
         try rfl
         done)
termination_by structural l => l

theorem emitTableChildren_wp (hc : HtmlConv) : ∀ (eh : Bool) (l : List Node) (o : String) (i : Nat)
    (f : List (String × String)) (ta : List TableAlignment) (tci : Nat)
    (ith itl : Bool) (w : List SilkprintWarning) (ms : List String) (mc : Nat)
    (p : List SilkprintWarning),
    emitTableChildren hc eh l ⟨o, i, f, ta, tci, ith, itl, p ++ w, ms, mc⟩
      = { emitTableChildren hc eh l ⟨o, i, f, ta, tci, ith, itl, w, ms, mc⟩
          with warnings
            := p ++ (emitTableChildren hc eh l ⟨o, i, f, ta, tci, ith, itl, w, ms, mc⟩).warnings }
  | _, [], o, i, f, ta, tci, ith, itl, w, ms, mc, p => rfl
  | eh, n :: rest, o, i, f, ta, tci, ith, itl, w, ms, mc, p => by
      simp only [emitTableChildren]
      split
      · rw [emitTableChildren_wp]
      · rw [emitNode_wp]
        obtain ⟨o2, i2, f2, ta2, tci2, ith2, itl2, w2, ms2, mc2⟩ :=
          emitNode hc n ⟨o, i, f, ta, tci, ith, itl, w, ms, mc⟩
        rw [emitTableChildren_wp]
termination_by structural eh l => l

end

theorem emitNode_warnings_prefix (hc : HtmlConv) (n : Node) (ctx : EmitContext)
    (p : List SilkprintWarning) :
    emitNode hc n { ctx with warnings := p ++ ctx.warnings }
      = { emitNode hc n ctx with warnings := p ++ (emitNode hc n ctx).warnings } := by
  obtain ⟨o, i, f, ta, tci, ith, itl, w, ms, mc⟩ := ctx
  exact emitNode_wp hc n o i f ta tci ith itl w ms mc p

theorem collectStep_wp (hc : HtmlConv) (m : List (String × String))
    (w p : List SilkprintWarning) (n : Node) :
    collectStep hc (m, p ++ w) n
      = ((collectStep hc (m, w) n).1, p ++ (collectStep hc (m, w) n).2) := by
  cases n <;> try rfl
  case footnoteDefinition name cs =>
    simp only [collectStep]
    rw [emitChildren_wp]

theorem collectFold_wp (hc : HtmlConv) (ns : List Node) :
    ∀ (m : List (String × String)) (w p : List SilkprintWarning),
    ns.foldl (collectStep hc) (m, p ++ w)
      = ((ns.foldl (collectStep hc) (m, w)).1, p ++ (ns.foldl (collectStep hc) (m, w)).2) := by
  induction ns with
  | nil => intro m w p; rfl
  | cons n rest ih =>
      intro m w p
      simp only [List.foldl_cons]
      rw [collectStep_wp]
      obtain ⟨m2, w2⟩ := collectStep hc (m, w) n
      exact ih m2 w2 p

theorem collectFootnoteDefinitions_wp (hc : HtmlConv) (root : Node)
    (w p : List SilkprintWarning) :
    collectFootnoteDefinitions hc root (p ++ w)
      = ((collectFootnoteDefinitions hc root w).1,
          p ++ (collectFootnoteDefinitions hc root w).2) :=
  collectFold_wp hc (descendants root) [] w p

/-- The emitted text, the mermaid source list, and the warnings the
emitter adds are all independent of the warning-collector state the
emitter starts from: warnings are append-only. -/
theorem emitTypst_warnings_state (hc : HtmlConv) (root : Node) (t : ResolvedTheme)
    (w : List SilkprintWarning) :
    emitTypst hc root t w
      = ((emitTypst hc root t []).1, (emitTypst hc root t []).2.1,
          w ++ (emitTypst hc root t []).2.2) := by
  unfold emitTypst
  dsimp only []
  have hco := collectFootnoteDefinitions_wp hc root [] w
  rw [List.append_nil] at hco
  rw [hco]
  dsimp only []
  rw [emitNode_wp]

/-! ## Footnote map lemmas (pass 1 of `emit_typst`) -/

/-- After inserting a definition, looking its name up finds the new
content. -/
theorem lookup_insertFootnote_self (m : List (String × String))
    (name c : String) :
    List.lookup name (insertFootnote m name c) = some c := by
  induction m with
  | nil => simp [insertFootnote, List.lookup]
  | cons kv rest ih =>
      obtain ⟨k, v⟩ := kv
      by_cases hk : k = name
      · subst hk
        simp [insertFootnote, List.lookup]
      · simp only [insertFootnote, if_neg hk, List.lookup]
        have hne : (name == k) = false := by
          simp only [beq_eq_false_iff_ne]
          exact fun hh => hk hh.symm
        rw [hne]
        exact ih

/-- Inserting a definition never removes a name from the map. -/
theorem lookup_insertFootnote_isSome (m : List (String × String))
    (k name c : String) (h : (List.lookup k m).isSome = true) :
    (List.lookup k (insertFootnote m name c)).isSome = true := by
  induction m with
  | nil => simp [List.lookup] at h
  | cons kv rest ih =>
      obtain ⟨k1, v1⟩ := kv
      by_cases hk1 : k1 = name
      · subst hk1
        simp only [insertFootnote, if_pos rfl]
        cases hbeq : k == k1 <;> simp only [List.lookup, hbeq] at h ⊢
        · exact h
        · rfl
      · simp only [insertFootnote, if_neg hk1]
        cases hbeq : k == k1 <;> simp only [List.lookup, hbeq] at h ⊢
        · exact ih h
        · rfl

/-- One step of pass 1 never removes a name from the footnote map. -/
theorem collectStep_lookup_mono (hc : HtmlConv)
    (acc : List (String × String) × List SilkprintWarning) (n : Node)
    (k : String) (h : (List.lookup k acc.1).isSome = true) :
    (List.lookup k (collectStep hc acc n).1).isSome = true := by
  cases n <;> try exact h
  case footnoteDefinition name cs =>
    simp only [collectStep]
    exact lookup_insertFootnote_isSome _ _ _ _ h

/-- A whole fold of pass 1 never removes a name from the footnote map. -/
theorem collectFold_lookup_mono (hc : HtmlConv) (l : List Node) :
    ∀ (acc : List (String × String) × List SilkprintWarning) (k : String),
      (List.lookup k acc.1).isSome = true →
      (List.lookup k (l.foldl (collectStep hc) acc).1).isSome = true := by
  induction l with
  | nil => intro acc k h; exact h
  | cons n rest ih =>
      intro acc k h
      simp only [List.foldl_cons]
      exact ih _ _ (collectStep_lookup_mono hc acc n k h)

/-- Every footnote definition visited by pass 1 ends up in the map. -/
theorem collectFold_def_found (hc : HtmlConv) (l : List Node) :
    ∀ (acc : List (String × String) × List SilkprintWarning)
      (name : String) (cs : List Node),
      Node.footnoteDefinition name cs ∈ l →
      (List.lookup name (l.foldl (collectStep hc) acc).1).isSome = true := by
  induction l with
  | nil => intro acc name cs h; simp at h
  | cons n rest ih =>
      intro acc name cs h
      simp only [List.foldl_cons]
      rcases List.mem_cons.mp h with heq | hmem
      · rw [← heq]
        refine collectFold_lookup_mono hc rest _ name ?_
        simp only [collectStep]
        rw [lookup_insertFootnote_self]
        rfl
      · exact ih _ name cs hmem

/-! ## Table child-loop lemmas (the `Table` arm of `emit_node`) -/

/-- With the empty-header flag set, the table child loop emits exactly
the non-header rows, in order. -/
theorem emitTableChildren_skip (hc : HtmlConv) (rows : List Node) :
    ∀ ctx : EmitContext,
    emitTableChildren hc true rows ctx
      = emitNodes hc (rows.filter (fun r => !isHeaderRow r)) ctx := by
  induction rows with
  | nil => intro ctx; rfl
  | cons n rest ih =>
      intro ctx
      cases hn : isHeaderRow n
      · simp only [emitTableChildren, hn, Bool.true_and, Bool.false_eq_true,
          if_false, List.filter_cons, Bool.not_false, if_true, emitNodes, ih]
      · simp only [emitTableChildren, hn, Bool.true_and, if_true,
          List.filter_cons, Bool.not_true, Bool.false_eq_true, if_false, ih]

/-- Without the empty-header flag, the table child loop emits every
row. -/
theorem emitTableChildren_all (hc : HtmlConv) (rows : List Node) :
    ∀ ctx : EmitContext,
    emitTableChildren hc false rows ctx = emitNodes hc rows ctx := by
  induction rows with
  | nil => intro ctx; rfl
  | cons n rest ih =>
      intro ctx
      simp only [emitTableChildren, Bool.false_and, Bool.false_eq_true,
        if_false, emitNodes, ih]

/-! ## Claim theorems: theme engine -/
/-- C1: theme merge is directional and sentinel-aware.  For every pair
of trees and every leaf field (a path that reaches a non-table value in
both the base and the child), the merged tree holds the base's value
when the child's value is the unset sentinel (empty string, zero
number, false boolean, empty collection) and the child's value
otherwise; nested sections are merged recursively, so the statement
quantifies over paths of arbitrary depth. -/
theorem C1_merge_directional (p : List String) (b c vb vc : Toml)
    (hwf : distinctKeysToml c = true)
    (hb : b.getPath p = some vb) (hc : c.getPath p = some vc)
    (hvb : vb.isTable = false) (hvc : vc.isTable = false) :
    (mergeTokens b c).getPath p
      = some (if isDefaultValue vc then vb else vc) :=
  merge_directional p b c vb vc hwf hb hc hvb hvc

theorem C1_merge_directional_witness :
    (mergeTokens (.table [("sec", .table [("f", .str "base")])])
      (.table [("sec", .table [("f", .str "")])])).getPath ["sec", "f"]
      = some (.str "base")
    ∧ (mergeTokens (.table [("sec", .table [("f", .str "base")])])
      (.table [("sec", .table [("f", .str "child")])])).getPath ["sec", "f"]
      = some (.str "child") :=
  ⟨C1_merge_directional ["sec", "f"]
      (.table [("sec", .table [("f", .str "base")])])
      (.table [("sec", .table [("f", .str "")])])
      (.str "base") (.str "") (by decide) rfl rfl rfl rfl,
   C1_merge_directional ["sec", "f"]
      (.table [("sec", .table [("f", .str "base")])])
      (.table [("sec", .table [("f", .str "child")])])
      (.str "base") (.str "child") (by decide) rfl rfl rfl rfl⟩

/-- C2: the inheritance depth cap.  A chain of exactly six distinct
themes (five loadable themes filling the chain, whose last member
extends a sixth, loadable, chain-ending theme) fails with
`ThemeInheritanceDepth` carrying the five loaded names; any well-linked
cycle-free chain of at most five themes resolves successfully. -/
theorem C2_inheritance_depth_cap
    (env₁ : String → Option Toml) (t : Toml) (ps : List Toml) (u : Toml)
    (hroot : metaName t ≠ "")
    (hlinks : linksFrom env₁ t ps)
    (hfresh : freshNames ps [metaName t])
    (hlen5 : (t :: ps).length = MAX_INHERITANCE_DEPTH)
    (hlink6 : metaExtends ((t :: ps).getLast (by simp)) = metaName u)
    (huname : metaName u ≠ "")
    (hufresh : metaName u ∉ (t :: ps).map metaName)
    (_huload : env₁ (metaName u) = some u)
    (_huend : metaExtends u = "")
    (env₂ : String → Option Toml) (s : Toml) (qs : List Toml)
    (hlinks₂ : linksFrom env₂ s qs)
    (hfresh₂ : freshNames qs (if metaName s = "" then [] else [metaName s]))
    (hlast₂ : metaExtends ((s :: qs).getLast (by simp)) = "")
    (hlen₂ : (s :: qs).length ≤ MAX_INHERITANCE_DEPTH) :
    resolveInheritance env₁ t = .error (.themeInheritanceDepth
        (String.intercalate " -> " ((t :: ps).map metaName)))
      ∧ ∃ merged, resolveInheritance env₂ s = .ok merged :=
  ⟨resolveInheritance_depth env₁ t ps hroot hlinks hfresh hlen5
      (by rw [hlink6]; exact huname) (by rw [hlink6]; exact hufresh),
   resolveInheritance_ok env₂ s qs hlinks₂ hfresh₂ hlast₂ hlen₂⟩

theorem C2_inheritance_depth_cap_witness :
    resolveInheritance chainSixEnv (mkTheme "a" "b")
        = .error (.themeInheritanceDepth "a -> b -> c -> d -> e")
      ∧ ∃ merged, resolveInheritance chainFiveEnv (mkTheme "p" "q") = .ok merged :=
  C2_inheritance_depth_cap chainSixEnv (mkTheme "a" "b")
    [mkTheme "b" "c", mkTheme "c" "d", mkTheme "d" "e", mkTheme "e" "f"]
    (mkTheme "f" "")
    (by decide)
    ⟨rfl, by decide, rfl, rfl, by decide, rfl, rfl, by decide, rfl, rfl,
      by decide, rfl, trivial⟩
    ⟨by decide, by decide, by decide, by decide, trivial⟩
    (by decide) (by decide) (by decide) (by decide) rfl rfl
    chainFiveEnv (mkTheme "p" "q")
    [mkTheme "q" "r", mkTheme "r" "s", mkTheme "s" "t", mkTheme "t" ""]
    ⟨rfl, by decide, rfl, rfl, by decide, rfl, rfl, by decide, rfl, rfl,
      by decide, rfl, trivial⟩
    ⟨by decide, by decide, by decide, by decide, trivial⟩
    (by decide) (by decide)

/-- C3 (counterexample): a theme whose extends chain repeats a name
only beyond the depth cap (a → b → c → d → e → f with f extending b
again) fails with `ThemeInheritanceDepth`, not with `ThemeCycle` as the
claim requires for every repeated-name chain. -/
theorem C3_cycle_counterexample :
    metaExtends (mkTheme "f" "b") = metaName (mkTheme "b" "c")
    ∧ lateRepeatEnv "f" = some (mkTheme "f" "b")
    ∧ resolveInheritance lateRepeatEnv (mkTheme "a" "b")
        = .error (.themeInheritanceDepth "a -> b -> c -> d -> e") :=
  ⟨rfl, rfl,
    resolveInheritance_depth lateRepeatEnv (mkTheme "a" "b")
      [mkTheme "b" "c", mkTheme "c" "d", mkTheme "d" "e", mkTheme "e" "f"]
      (by decide)
      ⟨rfl, by decide, rfl, rfl, by decide, rfl, rfl, by decide, rfl, rfl,
        by decide, rfl, trivial⟩
      ⟨by decide, by decide, by decide, by decide, trivial⟩
      (by decide) (by decide) (by decide)⟩

/-- C3 (amended): a repeated name that is reached within the depth cap
makes inheritance resolution fail with a `ThemeCycle` error whose
message is the chain of theme names in order joined by " -> " followed
by the repeated name; in particular A ⇄ B yields "A -> B -> A". -/
theorem C3_cycle_detected (env : String → Option Toml) (t : Toml)
    (ps : List Toml)
    (hroot : metaName t ≠ "")
    (hlinks : linksFrom env t ps)
    (hfresh : freshNames ps [metaName t])
    (hlen : (t :: ps).length ≤ MAX_INHERITANCE_DEPTH)
    (hne : metaExtends ((t :: ps).getLast (by simp)) ≠ "")
    (hmem : metaExtends ((t :: ps).getLast (by simp)) ∈ (t :: ps).map metaName) :
    resolveInheritance env t = .error (.themeCycle
      (String.intercalate " -> " ((t :: ps).map metaName) ++ " -> "
        ++ metaExtends ((t :: ps).getLast (by simp)))) :=
  resolveInheritance_cycle env t ps hroot hlinks hfresh hlen hne hmem

theorem C3_cycle_detected_witness :
    resolveInheritance twoCycleEnv (mkTheme "A" "B")
      = .error (.themeCycle "A -> B -> A") :=
  C3_cycle_detected twoCycleEnv (mkTheme "A" "B") [mkTheme "B" "A"]
    (by decide)
    ⟨rfl, by decide, rfl, trivial⟩
    ⟨by decide, trivial⟩
    (by decide) (by decide) (by decide)

/-- C4: palette alias resolution reaches the fixed point on the
two-entry palette a ↦ b, b ↦ #112233: both entries resolve to the
literal color #112233. -/
theorem C4_palette_alias_fixed_point :
    List.lookup "a" (resolveColorTable [("a", "b"), ("b", "#112233")])
        = some "#112233"
    ∧ List.lookup "b" (resolveColorTable [("a", "b"), ("b", "#112233")])
        = some "#112233"
    ∧ resolveColorTable [("a", "b"), ("b", "#112233")]
        = [("a", "#112233"), ("b", "#112233")] := by
  refine ⟨?_, ?_, ?_⟩ <;> decide

/-- C8: refuted — contrast checking CAN abort theme resolution.
`relative_luminance` checks the color string's length in bytes
(`hex.len() != 6`) but then slices `&hex[0..2]` at fixed byte offsets:
a color like "aαbcd" is 6 bytes but 5 characters, so it passes the
length check and the slice `&hex[0..2]` ends inside the two-byte
character 'α', which panics (modelled as `.error ()`).  A theme
carrying such a color makes `run_contrast_checks` abort instead of
skipping the malformed color.  For all-ASCII colors byte offsets always
land on character boundaries, so the panic is impossible and a
malformed color indeed skips its check with neither warning nor
error. -/
theorem C8_contrast_panic :
    (∀ gamma : Rat → Rat, relativeLuminance gamma "aαbcd" = .error ())
    ∧ byteLen "aαbcd".data = 6
    ∧ "aαbcd".data.length = 5
    ∧ (∀ gamma : Rat → Rat,
        runContrastChecks gamma panicColorTokens [] = .error ())
    ∧ (∀ (gamma : Rat → Rat) (hex : String),
        (∀ c ∈ hex.data, c.utf8Size = 1) →
          relativeLuminance gamma hex ≠ .error ())
    ∧ (∀ gamma : Rat → Rat,
        runContrastChecks gamma malformedColorTokens [] = .ok []) :=
  ⟨fun _ => rfl, rfl, rfl, fun _ => rfl, relativeLuminance_no_panic,
   fun _ => rfl⟩

/-- C10: palette alias resolution is total even on cyclic palettes: for
every palette the result is obtained by at most 10 substitution passes
(and keeps exactly the original keys), and on the two-entry cycle
a ↦ b, b ↦ a the entries stay symbolic (no result value is a
'#'-prefixed literal color). -/
theorem C10_palette_cycle_total :
    (∀ colors : List (String × String),
      (resolveColorTable colors).map Prod.fst = colors.map Prod.fst
      ∧ ∃ n ≤ 10, resolveColorTable colors = passIter n colors)
    ∧ resolveColorTable [("a", "b"), ("b", "a")] = [("a", "a"), ("b", "b")]
    ∧ ((resolveColorTable [("a", "b"), ("b", "a")]).all
        (fun kv => !startsWithChar '#' kv.2)) = true := by
  refine ⟨fun colors => ⟨?_, resolveColorTableLoop_isIter 10 colors⟩,
    by decide, by decide⟩
  obtain ⟨n, _, heq⟩ := resolveColorTableLoop_isIter 10 colors
  rw [show resolveColorTable colors = resolveColorTableLoop 10 colors from rfl,
    heq, passIter_keys]

/-! ## Claim theorems: markup emitter -/
/-- C5 (counterexample): a reference to footnote "2" inside the body of
an earlier footnote definition "1" does NOT inline definition "2",
although that definition exists later in the tree: pass 1 renders each
definition body against the map collected so far (`footnotes:
map.clone()`), so the reference falls back to a superscript label and a
`FootnoteNotFound` warning is appended. -/
theorem C5_footnote_nested_counterexample :
    Node.footnoteDefinition "2" [.paragraph [.text "late"]]
      ∈ descendants docNestedRef
    ∧ emitTypst plainHtml docNestedRef emptyTheme []
      = ("\n#footnote[#super[2]]\n", [], [.footnoteNotFound "2"]) :=
  ⟨by simp [docNestedRef, descendants, descendantsList], rfl⟩

/-- C5 (amended): footnote forward reference, for references emitted in
pass 2.  Pass 1 puts every footnote definition of the tree into the
map (whatever its position), pass 2 resolves each reference of the
document body against that complete map, so a definition after its
first body reference still inlines as `#footnote[...]`; a name the map
misses renders as a plain superscript label plus a `FootnoteNotFound`
warning.  (A reference inside another definition's body resolves
against the partial pass-1 map instead: see the counterexample.) -/
theorem C5_footnote_forward_reference :
    (∀ (hc : HtmlConv) (root : Node) (name : String) (cs : List Node)
       (ws : List SilkprintWarning),
      Node.footnoteDefinition name cs ∈ descendants root →
        (List.lookup name (collectFootnoteDefinitions hc root ws).1).isSome
          = true)
    ∧ (∀ (hc : HtmlConv) (name content : String) (ctx : EmitContext),
        List.lookup name ctx.footnotes = some content →
          emitNode hc (.footnoteReference name) ctx
            = ctx.push ("#footnote[" ++ strTrim content ++ "]"))
    ∧ (∀ (hc : HtmlConv) (name : String) (ctx : EmitContext),
        List.lookup name ctx.footnotes = none →
          emitNode hc (.footnoteReference name) ctx
            = { ctx.push ("#super[" ++ escapeTypstContent name ++ "]") with
                warnings :=
                  (ctx.push ("#super[" ++ escapeTypstContent name ++ "]")).warnings
                    ++ [.footnoteNotFound name] })
    ∧ (∀ hc : HtmlConv,
        emitTypst hc docForwardRef emptyTheme []
          = ("\nx#footnote[note body]\n", [], []))
    ∧ (∀ hc : HtmlConv,
        emitTypst hc docMissingRef emptyTheme []
          = ("\nx#super[missing]\n", [], [.footnoteNotFound "missing"])) := by
  refine ⟨?_, ?_, ?_, fun hc => rfl, fun hc => rfl⟩
  · intro hc root name cs ws hmem
    exact collectFold_def_found hc (descendants root) ([], ws) name cs hmem
  · intro hc name content ctx h
    simp only [emitNode]
    rw [h]
  · intro hc name ctx h
    simp only [emitNode]
    rw [h]

/-- C6 (counterexample): the emitted fence is NOT always exactly one
character longer than the longest backtick run in the body: a body
with no backticks at all (longest run 0) is fenced with three
backticks, not one. -/
theorem C6_fence_counterexample :
    maxBacktickRun "x" = 0
    ∧ (backtickFence "x").data.length = 3
    ∧ ¬ (backtickFence "x").data.length = maxBacktickRun "x" + 1 := by
  refine ⟨rfl, rfl, by decide⟩

/-- C6 (amended): the emitted fence is a run of backticks of length
`max(longest run in the body, 2) + 1`: always at least 3, always
strictly longer than every backtick run in the body (so it cannot
collide), and exactly one longer than the longest run whenever that
run has length at least 2 (in particular a body containing a run of
exactly 3 backticks is fenced with 4). -/
theorem C6_fence_non_collision (content : String) :
    (backtickFence content).data.length = max (maxBacktickRun content) 2 + 1
    ∧ maxBacktickRun content < (backtickFence content).data.length
    ∧ 3 ≤ (backtickFence content).data.length
    ∧ (2 ≤ maxBacktickRun content →
        (backtickFence content).data.length = maxBacktickRun content + 1)
    ∧ (backtickFence content).data.all (fun c => c == '`') = true := by
  refine ⟨?_, ?_, ?_, ?_, ?_⟩
  · simp [backtickFence]
  · simp [backtickFence]
    omega
  · simp [backtickFence]
  · intro h
    simp [backtickFence]
    omega
  · simp [backtickFence, List.all_eq_true, List.mem_replicate]

theorem C6_fence_non_collision_witness :
    2 ≤ maxBacktickRun "a```b"
    ∧ (backtickFence "a```b").data.length = maxBacktickRun "a```b" + 1 :=
  ⟨by decide, (C6_fence_non_collision "a```b").2.2.2.1 (by decide)⟩

/-- C7: empty-header table suppression, for every table node.  When the
header cells all flatten to blank text, the child loop emits exactly
the non-header rows (so the header row is omitted entirely) and the
whole table is wrapped in the code scope that resets the default
header-cell styling for the first row; when some header cell is
non-blank, every row — the header row included — is emitted and no
wrapper is added.  Concrete instances close the loop end to end. -/
theorem C7_empty_header_suppression :
    (∀ (hc : HtmlConv) (rows : List Node) (ctx : EmitContext),
      emitTableChildren hc true rows ctx
        = emitNodes hc (rows.filter (fun r => !isHeaderRow r)) ctx)
    ∧ (∀ (hc : HtmlConv) (rows : List Node) (ctx : EmitContext),
        emitTableChildren hc false rows ctx = emitNodes hc rows ctx)
    ∧ (∀ (hc : HtmlConv) (aligns : List TableAlignment) (ncols : Nat)
         (rows : List Node) (ctx : EmitContext),
        hasEmptyHeader (.table aligns ncols rows) = true →
          emitNode hc (.table aligns ncols rows) ctx
            = { ((emitNodes hc (rows.filter (fun r => !isHeaderRow r))
                  ((((({ ctx with tableAlignments := aligns }).newline.push
                      "#\x7b\n").push
                      "show table.cell.where(y: 0): set text(weight: 400)\n").push
                      "show table.cell.where(y: 0): set table.cell(fill: none, stroke: none)\n").push
                    ("table(\n  columns: " ++ toString ncols
                      ++ ",\n  align: ("
                      ++ String.intercalate ", " (aligns.map alignStr)
                      ++ ",),\n"))).push ")\n").push "\x7d\n"
                with tableAlignments := [] })
    ∧ (∀ (hc : HtmlConv) (aligns : List TableAlignment) (ncols : Nat)
         (rows : List Node) (ctx : EmitContext),
        hasEmptyHeader (.table aligns ncols rows) = false →
          emitNode hc (.table aligns ncols rows) ctx
            = { (emitNodes hc rows
                  (({ ctx with tableAlignments := aligns }).newline.push
                    ("#table(\n  columns: " ++ toString ncols
                      ++ ",\n  align: ("
                      ++ String.intercalate ", " (aligns.map alignStr)
                      ++ ",),\n"))).push ")\n"
                with tableAlignments := [] })
    ∧ hasEmptyHeader tblEmptyHeader = true
    ∧ (∀ hc : HtmlConv,
        (emitTypst hc (.document [tblEmptyHeader]) emptyTheme []).1
          = "\n#\x7b\nshow table.cell.where(y: 0): set text(weight: 400)\nshow table.cell.where(y: 0): set table.cell(fill: none, stroke: none)\ntable(\n  columns: 2,\n  align: (left, right,),\n  [1],\n  [2],\n)\n\x7d\n")
    ∧ hasEmptyHeader tblWithHeader = false
    ∧ (∀ hc : HtmlConv,
        (emitTypst hc (.document [tblWithHeader]) emptyTheme []).1
          = "\n#table(\n  columns: 2,\n  align: (left, right,),\n  [A],\n  [B],\n  [1],\n  [2],\n)\n") := by
  refine ⟨emitTableChildren_skip, emitTableChildren_all, ?_, ?_, rfl,
    fun hc => rfl, rfl, fun hc => rfl⟩
  · intro hc aligns ncols rows ctx h
    simp only [emitNode]
    rw [h]
    rw [if_pos rfl, if_pos rfl]
    rw [emitTableChildren_skip]
  · intro hc aligns ncols rows ctx h
    simp only [emitNode]
    rw [h]
    rw [if_neg (by simp), if_neg (by simp)]
    rw [emitTableChildren_all]

/-- C9: emission is deterministic and a pure function of its explicit
inputs.  For every HTML-converter pair, document tree, theme, and
initial warning state, the result does not depend on the theme argument
at all (the Rust signature ignores `_theme`), and the emitted text and
mermaid source list do not depend on the warning-collector state the
emitter starts from — warnings are only appended to it.  Two runs on
the same inputs are the same function application and therefore produce
identical output. -/
theorem C9_emission_deterministic :
    (∀ (hc : HtmlConv) (root : Node) (t₁ t₂ : ResolvedTheme)
       (w : List SilkprintWarning),
        emitTypst hc root t₁ w = emitTypst hc root t₂ w)
    ∧ (∀ (hc : HtmlConv) (root : Node) (t : ResolvedTheme)
       (w : List SilkprintWarning),
        emitTypst hc root t w
          = ((emitTypst hc root t []).1, (emitTypst hc root t []).2.1,
              w ++ (emitTypst hc root t []).2.2)) :=
  ⟨fun _ _ _ _ _ => rfl, emitTypst_warnings_state⟩

end Silkprint

